import Mathlib

/-!
Verification development for the icescript bytecode pipeline
(packages `token`, `parser`, `compiler`, `object`, `vm`).

The definitions below are shallow embeddings of the Go source.  Each
definition carries a comment naming the Go function it embeds.  Go `int64`
arithmetic is modelled by `Int` together with explicit wrapping modulo 2^64;
Go runtime panics (index out of range, integer divide by zero, slice bounds)
are modelled by an explicit `goPanic` outcome, distinct from the script-level
runtime errors that the VM constructs via `newRuntimeError`.

The `object.Float` payload (an IEEE-754 double) is modelled by `Rat`; the
only operation on float payloads used in this development is the comparison
against zero performed by `isTruthy` (IEEE `-0.0` equals `0.0`, matching the
rational model; `NaN`, which is truthy in the source, has no counterpart in
the model and is outside its scope).
-/

namespace Ice

/-- Go `int64` wrap-around: two's-complement reduction into
`[-2^63, 2^63)`.  Go's `+`, `-`, `*` on `int64` wrap, and
`math.MinInt64 / -1` wraps back to `math.MinInt64`. -/
def wrap64 (n : Int) : Int := (n + 2 ^ 63) % 2 ^ 64 - 2 ^ 63

/- ## Object model (`object` package, `object.go`, `tuple.go`, `user.go`,
`critical.go`).

Each constructor mirrors one concrete implementation of `object.Object`
that can appear on the VM stack.  Payloads irrelevant to the claims
(host `User.Value`, builtin function bodies) are elided; the constructor
itself is kept so that `Type()`-dispatch (`typeString`) is total over the
same set of dynamic types as the source. -/

inductive Obj : Type where
  | integer (v : Int)
  | float (v : Rat)
  | boolean (b : Bool)
  | null
  | str (s : String)
  | array (elems : List Obj)
  | hashObj (pairs : List (Obj × Obj))
  | tuple (elems : List Obj)
  | closureObj (fnName : String)
  | builtinObj
  | compiledFunction (ins : List Nat) (numLocals numParams : Nat)
      (sourceMap : List (Nat × Nat)) (name : String)
  | user

/-- Comparison against the `object.NullObj` singleton (`start != vm.Null`). -/
def isNullObj : Obj → Bool
  | .null => true
  | _ => false

/-- `object.ObjectType` strings, from the `const` block in `object.go`.
`TUPLE_OBJ` and `USER_OBJ` are declared in files outside the provided
sources; their values "TUPLE" and "USER" follow the naming convention of the
block and the dispatch in the `typeof` builtin (`builtins.go`). -/
def typeString : Obj → String
  | .integer _ => "INTEGER"
  | .float _ => "FLOAT"
  | .boolean _ => "BOOLEAN"
  | .null => "NULL"
  | .str _ => "STRING"
  | .array _ => "ARRAY"
  | .hashObj _ => "HASH"
  | .tuple _ => "TUPLE"
  | .closureObj _ => "CLOSURE"
  | .builtinObj => "BUILTIN"
  | .compiledFunction _ _ _ _ _ => "COMPILED_FUNCTION"
  | .user => "USER"

/-- Outcome of a VM helper: a value, a Go `error` (which the `run` loop
wraps into a script runtime error), or a Go runtime panic (a crash that is
not a script error at all). -/
inductive ExecRes (α : Type) : Type where
  | ok (a : α)
  | err (msg : String)
  | goPanic (msg : String)
  deriving DecidableEq, Repr

/-- The `*object.Integer` type assertion `left.(*object.Integer).Value`. -/
def integerValue : Obj → Option Int
  | .integer v => some v
  | _ => none

/- ## VM arithmetic (`vm.go`) -/

/-- Opcodes of the `opcode` package, one constructor per mnemonic used by
the compiler and the VM.  The numeric byte values and operand widths live
in the `opcode` package, which is not among the provided sources; they are
modelled from the spec (§4.5, §6.3) by `opcodeByte` and `operandWidths`
below. -/
inductive Opcode : Type where
  | opConstant
  | opPop
  | opDup
  | opAdd
  | opSub
  | opMul
  | opDiv
  | opMod
  | opEqual
  | opNotEqual
  | opGreaterThan
  | opBang
  | opMinus
  | opTrue
  | opFalse
  | opNull
  | opJump
  | opJumpNotTruthy
  | opSetGlobal
  | opGetGlobal
  | opSetLocal
  | opGetLocal
  | opArray
  | opHash
  | opIndex
  | opSlice
  | opCall
  | opReturnValue
  | opReturn
  | opClosure
  | opGetFree
  | opGetBuiltin
  | opDestructure
  deriving DecidableEq, Repr

/-- `vm.executeBinaryIntegerOperation` (vm.go).  Both operands have already
been checked to be `INTEGER` by the caller; the Go code then type-asserts.
Go semantics: `+ - *` wrap; `/` is division truncated toward zero and `%`
the matching remainder, both panicking on a zero divisor
("runtime error: integer divide by zero").  `MinInt64 / -1` wraps. -/
def executeBinaryIntegerOperation (op : Opcode) (left right : Obj) : ExecRes Obj :=
  match integerValue left, integerValue right with
  | some l, some r =>
    match op with
    | .opAdd => .ok (.integer (wrap64 (l + r)))
    | .opSub => .ok (.integer (wrap64 (l - r)))
    | .opMul => .ok (.integer (wrap64 (l * r)))
    | .opDiv =>
      if r = 0 then .goPanic "runtime error: integer divide by zero"
      else .ok (.integer (wrap64 (Int.tdiv l r)))
    | .opMod =>
      if r = 0 then .goPanic "runtime error: integer divide by zero"
      else .ok (.integer (Int.tmod l r))
    | _ => .err ("unknown integer operator")
  | _, _ => .goPanic "interface conversion"

/-- `vm.executeBinaryOperation` (vm.go lines 1509-1522).  Only the
INTEGER × INTEGER case is implemented; every other combination (floats,
strings, ...) falls through to the "unsupported types" error — the comment
`// floats, strings...` in the source marks the unimplemented cases. -/
def executeBinaryOperation (op : Opcode) (left right : Obj) : ExecRes Obj :=
  if typeString left = "INTEGER" ∧ typeString right = "INTEGER" then
    executeBinaryIntegerOperation op left right
  else
    .err ("unsupported types for binary operation: " ++ typeString left ++ " " ++ typeString right)

/-- `vm.isTruthy` (vm.go lines 1861-1876): strict truthiness.  Booleans use
their value, null is falsy, integers and floats compare against zero,
strings compare against empty; every other dynamic type is an error. -/
def isTruthy (obj : Obj) : ExecRes Bool :=
  match obj with
  | .boolean b => .ok b
  | .null => .ok false
  | .integer v => .ok (decide (v ≠ 0))
  | .float v => .ok (decide (v ≠ 0))
  | .str s => .ok (decide (s ≠ ""))
  | _ => .err ("condition must be boolean, got " ++ typeString obj)

/-- `vm.executeSliceExpression` (vm.go lines 1776-1817).  The bounds are
type-checked (null means absent), then adjusted: a negative start becomes 0,
an end beyond the length becomes the length, and a start above the end is
set to the end.  The final Go slice expression `elements[startIndex:endIndex]`
panics when `startIndex < 0` — which happens exactly when the end bound is a
negative integer, since then `endIndex` is never raised and `startIndex` is
lowered onto it. -/
def executeSliceExpression (left startB endB : Obj) : ExecRes (List Obj) :=
  match left with
  | .array elements =>
      let length : Int := elements.length
      let startRes : ExecRes Int :=
        if isNullObj startB then .ok 0
        else match integerValue startB with
          | some v => .ok v
          | none => .err ("slice start index must be INTEGER, got " ++ typeString startB)
      let endRes : ExecRes Int :=
        if isNullObj endB then .ok length
        else match integerValue endB with
          | some v => .ok v
          | none => .err ("slice end index must be INTEGER, got " ++ typeString endB)
      match startRes, endRes with
      | .ok s0, .ok e0 =>
        let s1 : Int := if s0 < 0 then 0 else s0
        let e1 : Int := if e0 > length then length else e0
        let s2 : Int := if s1 > e1 then e1 else s1
        if 0 ≤ s2 ∧ s2 ≤ e1 ∧ e1 ≤ length then
          .ok ((elements.take e1.toNat).drop s2.toNat)
        else
          .goPanic "runtime error: slice bounds out of range"
      | .err m, _ => .err m
      | _, .err m => .err m
      | _, _ => .goPanic "unreachable"
  | _ => .err ("slice operator not supported: " ++ typeString left)

/-- The in-line `OpDestructure` case of `vm.run` (vm.go lines 1337-1368).
Returns the list of values pushed (in push order).  A tuple shorter than the
operand count errors; a tuple long enough has its first `n` elements pushed;
a non-tuple errors only when `n ≠ 1` and is otherwise pushed back as-is. -/
def destructureStep (n : Nat) (obj : Obj) : ExecRes (List Obj) :=
  match obj with
  | .tuple elements =>
    if elements.length < n then
      .err ("not enough values to unpack: have " ++ toString elements.length ++
        ", want " ++ toString n)
    else
      .ok (elements.take n)
  | _ =>
    if n ≠ 1 then
      .err ("cannot destructure non-tuple into " ++ toString n ++ " values")
    else
      .ok [obj]

/- ## Error taxonomy (`token` package, error file) -/

/-- `token.ErrorKind` — the `const` block declares exactly three kinds:
`ErrorKindParse`, `ErrorKindCompile`, `ErrorKindRuntime`.  (The Go type is
an `int`; only these three constants are ever constructed.) -/
inductive ErrorKind : Type where
  | parse
  | compile
  | runtime
  deriving DecidableEq, Repr

/-- `ErrorKind.String()` from the `token` package.  (The Go `default`
branch returning "Error" is unreachable for the declared constants.) -/
def kindString : ErrorKind → String
  | .parse => "Parse error"
  | .compile => "Compile error"
  | .runtime => "Runtime error"

/-- `token.ScriptError`. -/
structure ScriptError : Type where
  kind : ErrorKind
  message : String
  line : Nat
  column : Nat
  file : String
  function : String
  stackTrace : List String
  deriving DecidableEq, Repr

/- ## Frames and runtime-error construction (`vm.go`) -/

/-- `vm.Frame`, restricted to the data `newRuntimeError` consumes: the
closure's function name and source map, and the current instruction
pointer.  In every reachable VM state the frames below `framesIndex` carry
a non-nil closure with a non-nil function (they are built by `New`,
`Invoke` or `pushFrame` from `*object.Closure` values), so the nil guards
of the Go code never fire and are not modelled. -/
structure Frame : Type where
  fnName : String
  sourceMap : List (Nat × Nat)
  ip : Int

/-- Lookup of `sourceMap[k]` for an `int` key: the map has `Nat` keys, so a
negative key misses. -/
def smLookup (m : List (Nat × Nat)) (k : Int) : Option Nat :=
  if 0 ≤ k then m.lookup k.toNat else none

/-- `vm.translateIPToLine` (vm.go lines 1452-1462): scan `ip, ip-1, ...,
ip-9` (a window of 10 positions) for a source-map entry; return 0 when none
is found. -/
def translateIPToLine (sourceMap : List (Nat × Nat)) (ip : Int) : Nat :=
  translateGo sourceMap ip 10
where
  translateGo (m : List (Nat × Nat)) (p : Int) : Nat → Nat
    | 0 => 0
    | i + 1 =>
      match smLookup m p with
      | some l => l
      | none => translateGo m (p - 1) i

/-- One stack-trace entry of `newRuntimeError`:
`fmt.Sprintf("%s (line %d)", fname, translateIPToLine(...))` with the
empty name replaced by "anonymous". -/
def frameTraceEntry (f : Frame) : String :=
  (if f.fnName = "" then "anonymous" else f.fnName) ++
    " (line " ++ toString (translateIPToLine f.sourceMap f.ip) ++ ")"

/-- `vm.newRuntimeError` (vm.go lines 1406-1450).  `frames` lists the live
frames from the top of the frame stack down to `frames[0]` (the Go loop
walks `framesIndex-1 .. 0`); the head is the current frame.  The error
carries kind Runtime, the current frame's resolved line and function name,
the fixed file name, and one formatted stack-trace entry per frame. -/
def newRuntimeError (top : Frame) (rest : List Frame) (msg : String) : ScriptError :=
  { kind := .runtime
    message := msg
    line := translateIPToLine top.sourceMap top.ip
    column := 0
    file := "script.ice"
    function := top.fnName
    stackTrace := (top :: rest).map frameTraceEntry }

/- ## Bytecode encoding (spec §4.5 / §6.3)

Modelled from the spec: the `opcode` package (instruction `Make`,
`ReadUint16`, `ReadUint8`, and the numeric opcode values) is not among the
provided sources.  Per spec §4.5/§6.3 an instruction is a 1-byte opcode
followed by operands: 16-bit big-endian for constant indices, jump targets,
global indices and array/hash sizes; 8-bit for local/free/builtin indices
and argument counts; `MakeClosure` takes a 16-bit and then an 8-bit
operand.  The byte value assigned to each opcode is internal to the
`opcode` package; the enumeration order below is one consistent
assignment. -/

def opcodeList : List Opcode :=
  [.opConstant, .opPop, .opDup, .opAdd, .opSub, .opMul, .opDiv, .opMod,
   .opEqual, .opNotEqual, .opGreaterThan, .opBang, .opMinus, .opTrue,
   .opFalse, .opNull, .opJump, .opJumpNotTruthy, .opSetGlobal, .opGetGlobal,
   .opSetLocal, .opGetLocal, .opArray, .opHash, .opIndex, .opSlice, .opCall,
   .opReturnValue, .opReturn, .opClosure, .opGetFree, .opGetBuiltin,
   .opDestructure]

def opcodeByte (op : Opcode) : Nat :=
  (opcodeList.indexOf op)

def decodeOpcode (b : Nat) : Option Opcode :=
  opcodeList.get? b

/-- Operand byte-widths per opcode (spec §4.5). -/
def operandWidths : Opcode → List Nat
  | .opConstant => [2]
  | .opJump => [2]
  | .opJumpNotTruthy => [2]
  | .opSetGlobal => [2]
  | .opGetGlobal => [2]
  | .opArray => [2]
  | .opHash => [2]
  | .opSetLocal => [1]
  | .opGetLocal => [1]
  | .opGetFree => [1]
  | .opGetBuiltin => [1]
  | .opCall => [1]
  | .opDestructure => [1]
  | .opClosure => [2, 1]
  | _ => []

/-- Big-endian encoding of one operand into `w` bytes (w ∈ {1, 2}). -/
def encodeOperand (w : Nat) (n : Nat) : List Nat :=
  if w = 2 then [n / 256 % 256, n % 256] else [n % 256]

/-- `opcode.Make`: opcode byte followed by its encoded operands. -/
def make (op : Opcode) (operands : List Nat) : List Nat :=
  opcodeByte op :: ((operandWidths op).zip operands).flatMap
    (fun p => encodeOperand p.1 p.2)

/-- `opcode.ReadUint16` on `ins[k:]` (big-endian). -/
def readUint16 (ins : List Nat) (k : Nat) : Option Nat :=
  match ins.get? k, ins.get? (k + 1) with
  | some hi, some lo => some (hi * 256 + lo)
  | _, _ => none

/-- `opcode.ReadUint8` on `ins[k:]`. -/
def readUint8 (ins : List Nat) (k : Nat) : Option Nat :=
  ins.get? k

/- ## The VM execution loop (`vm.run`, vm.go lines 1050-1372)

The model covers a single call frame (the main frame built by `vm.New`;
no `OpCall`/`OpReturn` dispatch) and the opcodes needed by the claims:
constants, singletons, stack manipulation, binary arithmetic, jumps,
slice, and destructure.  Opcodes outside this subset halt the model with
a distinguished `unmodelled` outcome — the programs examined by the
theorems below never reach it.  The cancellation check and the
instruction counter are translated exactly (lines 1058-1075): `opsCount`
is incremented per fetched instruction, and on reaching 1024 the context
is polled — a fired context aborts the loop by returning `ctx.Err()`
(the raw context error, not a `ScriptError`), otherwise the counter
resets to 0. -/

/-- Instructions and source map travel with the frame
(`frame.cl.Fn.Instructions` / `.SourceMap`). -/
structure VMFrame : Type where
  fnName : String
  ins : List Nat
  sourceMap : List (Nat × Nat)
  ip : Int

/-- The mutable VM registers the modelled opcodes touch.  The stack is the
Go value stack with the head of the list at `sp - 1` (the top). -/
structure VMState : Type where
  constants : List Obj
  stack : List Obj
  frame : VMFrame
  restFrames : List Frame

/-- Reasons a dispatch step aborts the run loop. -/
inductive Halt : Type where
  | scriptError (e : ScriptError)
  | goPanicH (msg : String)
  | unmodelledH

/-- The frame-stack view `newRuntimeError` walks, top frame first. -/
def VMState.topFrame (st : VMState) : Frame :=
  { fnName := st.frame.fnName, sourceMap := st.frame.sourceMap, ip := st.frame.ip }

/-- Wrapping of a Go `error` string by a `run` case:
`return vm.newRuntimeError("%s", err.Error())`. -/
def wrapRuntimeErr (st : VMState) (msg : String) : Halt :=
  .scriptError (newRuntimeError st.topFrame st.restFrames msg)

/-- `vm.push`: fails with "stack overflow" at `StackSize = 2048`; the
failure is wrapped by the dispatching case. -/
def pushV (st : VMState) (o : Obj) : Except Halt VMState :=
  if 2048 ≤ st.stack.length then .error (wrapRuntimeErr st "stack overflow")
  else .ok { st with stack := o :: st.stack }

/-- `vm.pop`: reading `stack[sp-1]` with `sp = 0` is a Go panic. -/
def popV (st : VMState) : Except Halt (Obj × VMState) :=
  match st.stack with
  | [] => .error (.goPanicH "runtime error: index out of range")
  | x :: xs => .ok (x, { st with stack := xs })

/-- Advance the current frame's instruction pointer by `n` operand bytes. -/
def VMState.bumpIp (st : VMState) (n : Int) : VMState :=
  { st with frame := { st.frame with ip := st.frame.ip + n } }

/-- Set the current frame's instruction pointer (jump dispatch:
`vm.currentFrame().ip = pos - 1`). -/
def VMState.setIp (st : VMState) (p : Int) : VMState :=
  { st with frame := { st.frame with ip := p } }

/-- Operand fetches read past the end of the instruction slice only on
malformed bytecode, which in Go is a slice-bounds panic. -/
def fetchOperand (o : Option Nat) : Except Halt Nat :=
  match o with
  | some n => .ok n
  | none => .error (.goPanicH "runtime error: index out of range")

/-- One dispatch of the `switch op` in `vm.run`.  `st.frame.ip` points at
the opcode byte.  Returns the successor state or the halt that aborts the
loop. -/
def execInstr (op : Opcode) (st : VMState) : Except Halt VMState :=
  match op with
  | .opConstant => do
    let idx ← fetchOperand (readUint16 st.frame.ins (st.frame.ip.toNat + 1))
    let st := st.bumpIp 2
    match st.constants.get? idx with
    | some c => pushV st c
    | none => .error (.goPanicH "runtime error: index out of range")
  | .opPop => do
    let (_, st) ← popV st
    .ok st
  | .opDup =>
    match st.stack with
    | x :: _ => pushV st x
    | [] => .error .unmodelledH
  | .opAdd | .opSub | .opMul | .opDiv | .opMod => do
    let (right, st) ← popV st
    let (left, st) ← popV st
    match executeBinaryOperation op left right with
    | .ok o => pushV st o
    | .err m => .error (wrapRuntimeErr st m)
    | .goPanic m => .error (.goPanicH m)
  | .opTrue => pushV st (.boolean true)
  | .opFalse => pushV st (.boolean false)
  | .opNull => pushV st .null
  | .opJump => do
    let pos ← fetchOperand (readUint16 st.frame.ins (st.frame.ip.toNat + 1))
    .ok (st.setIp ((pos : Int) - 1))
  | .opJumpNotTruthy => do
    let pos ← fetchOperand (readUint16 st.frame.ins (st.frame.ip.toNat + 1))
    let st := st.bumpIp 2
    let (cond, st) ← popV st
    match isTruthy cond with
    | .ok b => if b then .ok st else .ok (st.setIp ((pos : Int) - 1))
    | .err m => .error (wrapRuntimeErr st m)
    | .goPanic m => .error (.goPanicH m)
  | .opSlice => do
    let (endB, st) ← popV st
    let (startB, st) ← popV st
    let (left, st) ← popV st
    match executeSliceExpression left startB endB with
    | .ok elems => pushV st (.array elems)
    | .err m => .error (wrapRuntimeErr st m)
    | .goPanic m => .error (.goPanicH m)
  | .opDestructure => do
    let n ← fetchOperand (readUint8 st.frame.ins (st.frame.ip.toNat + 1))
    let st := st.bumpIp 1
    let (obj, st) ← popV st
    match destructureStep n obj with
    | .ok objs => objs.foldlM pushV st
    | .err m => .error (wrapRuntimeErr st m)
    | .goPanic m => .error (.goPanicH m)
  | _ => .error .unmodelledH

/-- Result of `vm.run` together with the model-specific outcomes. -/
inductive RunOutcome : Type where
  | finished (st : VMState)
  | scriptError (e : ScriptError)
  | cancelled
  | goPanicO (msg : String)
  | unmodelled
  | fuelOut

def haltOutcome : Halt → RunOutcome
  | .scriptError e => .scriptError e
  | .goPanicH m => .goPanicO m
  | .unmodelledH => .unmodelled

/-- `vm.run` (vm.go lines 1050-1372), fuel-indexed.  `cancelled` is the
state of the context's cancellation token (`ctx.Done()`), held fixed over
the run; `opsCount` is the instruction counter.  The second component
counts the instructions actually dispatched (the `switch` bodies entered)
before the run ended — a fetch aborted by the cancellation check is not
dispatched.  A builtin invocation would count as the single `OpCall`
instruction that performs it. -/
def runGo (cancelled : Bool) : Nat → Nat → VMState → RunOutcome × Nat
  | 0, _, _ => (.fuelOut, 0)
  | fuel + 1, opsCount, st =>
    if st.frame.ip < (st.frame.ins.length : Int) - 1 then
      let st := st.bumpIp 1
      match st.frame.ins.get? st.frame.ip.toNat with
      | none => (.goPanicO "runtime error: index out of range", 0)
      | some b =>
        if 1024 ≤ opsCount + 1 then
          if cancelled then (.cancelled, 0)
          else
            match decodeOpcode b with
            | none => (.unmodelled, 0)
            | some op =>
              match execInstr op st with
              | .error h => (haltOutcome h, 1)
              | .ok st2 =>
                let r := runGo cancelled fuel 0 st2
                (r.1, r.2 + 1)
        else
          match decodeOpcode b with
          | none => (.unmodelled, 0)
          | some op =>
            match execInstr op st with
            | .error h => (haltOutcome h, 1)
            | .ok st2 =>
              let r := runGo cancelled fuel (opsCount + 1) st2
              (r.1, r.2 + 1)
    else
      (.finished st, 0)

/-- Initial VM state for a compiled main function (`vm.New`: main frame
named "main", `ip = -1`, empty stack). -/
def initState (constants : List Obj) (ins : List Nat)
    (sourceMap : List (Nat × Nat)) : VMState :=
  { constants := constants
    stack := []
    frame := { fnName := "main", ins := ins, sourceMap := sourceMap, ip := -1 }
    restFrames := [] }

/- ## Tokens (`token` package) -/

/-- `token.TokenType` is a string type. -/
abbrev TokenType := String

/-- `token.LookupIdent`: the keyword table of the `token` package. -/
def lookupIdent (ident : String) : TokenType :=
  match ident with
  | "func" => "FUNCTION"
  | "var" => "VAR"
  | "true" => "TRUE"
  | "false" => "FALSE"
  | "if" => "IF"
  | "else" => "ELSE"
  | "return" => "RETURN"
  | "null" => "NULL"
  | "for" => "FOR"
  | "in" => "IN"
  | "break" => "BREAK"
  | "continue" => "CONTINUE"
  | "const" => "CONST"
  | "range" => "RANGE"
  | _ => "IDENT"

/-- The `ASSIGN_DECLARE` token (`:=`) referenced by the parser; its
constant lives in a token-package file outside the provided sources.
Modelled from the spec: §3.1 lists `:=` among the token kinds. -/
def assignDeclareTok : TokenType := ":="

/- ## Parser (`parser` package)

The claims about the parser concern two local decisions: which branch
`parseStatement` takes for a given current/peek token pair, and what
`parseExpression` and `parseAssignExpression` do at their entry points.
These are embedded directly; the remaining recursive descent is not needed
by any claim. -/

/-- The token types registered with a prefix parse function in
`parser.New`. -/
def prefixFnTokens : List TokenType :=
  ["IDENT", "INT", "FLOAT", "STRING", "!", "-", "TRUE", "FALSE", "(",
   "IF", "FUNCTION", "\x7b", "[", "NULL"]

def hasPrefixFn (t : TokenType) : Bool := prefixFnTokens.contains t

/-- The statement kind `parseStatement` (parser.go lines 143-166)
dispatches to. -/
inductive StmtBranch : Type where
  | letB
  | returnB
  | forB
  | funcDeclB
  | shortVarB
  | skipSemicolon
  | exprStmtB
  deriving DecidableEq, Repr

/-- `parseStatement` (parser.go lines 143-166): the `switch` over the
current token, with the peek-token checks for `func name(...)` and
`name := ...`.  There is no case for `BREAK` or `CONTINUE`: those fall to
the default branch, which parses an expression statement. -/
def parseStatementBranch (cur peek : TokenType) : StmtBranch :=
  if cur = "VAR" then .letB
  else if cur = "RETURN" then .returnB
  else if cur = "FOR" then .forB
  else if cur = "FUNCTION" then
    (if peek = "IDENT" then .funcDeclB else .exprStmtB)
  else if cur = ";" then .skipSemicolon
  else if cur = "IDENT" ∧ peek = assignDeclareTok then .shortVarB
  else .exprStmtB

/-- The entry check of `parseExpression` (parser.go lines 254-259): a
current token without a registered prefix parse function records
`noPrefixParseFnError` — a parse-kind `ScriptError` with message
"no prefix parse function for <type> found" — and yields no expression. -/
def parseExpressionEntryError (cur : TokenType) (line : Nat) : Option ScriptError :=
  if hasPrefixFn cur then none
  else
    some { kind := .parse
           message := "no prefix parse function for " ++ cur ++ " found"
           line := line, column := 0, file := "", function := ""
           stackTrace := [] }

/- ## AST (`ast` package)

The `ast` package source is not among the provided files; the node set is
reconstructed from its two consumers in the sources: the `compiler.Compile`
type switch (compiler.go) and the parser's constructors (parser.go).  Each
node stores the line of its token (`node.Token.Line`, the only token field
the compiler reads).  `letStmt`/`shortVarDecl` additionally carry a numeric
node id standing for Go pointer identity, used as the key of the compiler's
`symbolDefinitions` cache (spec §9 sanctions a numeric node id for
implementations without stable AST identity).  `breakStmt`/`continueStmt`
are modelled from the spec (§3.2 lists break/continue statements); the
parser never constructs them and the compiler's switch has no case for
them. -/

inductive Node : Type where
  | program (stmts : List Node)
  | exprStmt (line : Nat) (e : Node)
  | binop (line : Nat) (op : String) (l r : Node)
  | intLit (line : Nat) (v : Int)
  | floatLit (line : Nat) (v : Rat)
  | boolLit (line : Nat) (v : Bool)
  | unop (line : Nat) (op : String) (r : Node)
  | ifExpr (line : Nat) (cond cons : Node) (alt : Option Node)
  | blockStmt (stmts : List Node)
  | letStmt (nid : Nat) (line : Nat) (names : List String) (value : Node)
  | shortVarDecl (nid : Nat) (line : Nat) (names : List String) (value : Node)
  | assign (line : Nat) (name : String) (value : Node)
  | ident (line : Nat) (name : String)
  | strLit (line : Nat) (s : String)
  | arrayLit (line : Nat) (elems : List Node)
  | mapLit (line : Nat) (pairs : List (Node × Node))
  | indexExpr (line : Nat) (left idx : Node)
  | sliceExpr (line : Nat) (left : Node) (startE endE : Option Node)
  | funcLit (line : Nat) (name : String) (params : List String) (body : Node)
  | nullLit (line : Nat)
  | returnStmt (line : Nat) (value : Option Node)
  | callExpr (line : Nat) (fn : Node) (args : List Node)
  | forStmt (line : Nat) (initS condE postS : Option Node) (body : Node)
  | breakStmt (line : Nat)
  | continueStmt (line : Nat)

/-- The Go dynamic type name printed by the `%T` verb for each AST node,
as it appears in parser error messages. -/
def goTypeName : Node → String
  | .program _ => "*ast.Program"
  | .exprStmt _ _ => "*ast.ExpressionStatement"
  | .binop _ _ _ _ => "*ast.InfixExpression"
  | .intLit _ _ => "*ast.IntegerLiteral"
  | .floatLit _ _ => "*ast.FloatLiteral"
  | .boolLit _ _ => "*ast.Boolean"
  | .unop _ _ _ => "*ast.PrefixExpression"
  | .ifExpr _ _ _ _ => "*ast.IfExpression"
  | .blockStmt _ => "*ast.BlockStatement"
  | .letStmt _ _ _ _ => "*ast.LetStatement"
  | .shortVarDecl _ _ _ _ => "*ast.ShortVarDeclaration"
  | .assign _ _ _ => "*ast.AssignExpression"
  | .ident _ _ => "*ast.Identifier"
  | .strLit _ _ => "*ast.StringLiteral"
  | .arrayLit _ _ => "*ast.ArrayLiteral"
  | .mapLit _ _ => "*ast.MapLiteral"
  | .indexExpr _ _ _ => "*ast.IndexExpression"
  | .sliceExpr _ _ _ _ => "*ast.SliceExpression"
  | .funcLit _ _ _ _ => "*ast.FunctionLiteral"
  | .nullLit _ => "*ast.NullLiteral"
  | .returnStmt _ _ => "*ast.ReturnStatement"
  | .callExpr _ _ _ => "*ast.CallExpression"
  | .forStmt _ _ _ _ _ => "*ast.ForStatement"
  | .breakStmt _ => "*ast.BreakStatement"
  | .continueStmt _ => "*ast.ContinueStatement"

/-- `parser.parseAssignExpression` (parser.go lines 816-837).  Invoked as
the infix handler for `=`, so the current token is the `=` token
(`assignLine` is its line).  Only a left-hand side that is an
`*ast.Identifier` is accepted; any other expression records a parse error
at the `=` token and produces no node.  The subsequent
`p.parseExpression(precedence)` for the right-hand side is abstracted by
the already-parsed `value` argument. -/
def parseAssignExpression (left : Node) (assignLine : Nat) (value : Node) :
    Except ScriptError Node :=
  match left with
  | .ident _ name => .ok (.assign assignLine name value)
  | _ =>
    .error { kind := .parse
             message := "expected identifier on left side of assignment, got " ++
               goTypeName left
             line := assignLine, column := 0, file := "", function := ""
             stackTrace := [] }

/- ## Symbol table (`compiler` package)

Modelled from the spec: the symbol-table file of the `compiler` package is
not among the provided sources (only its uses in `compiler.Compile` are).
Spec §3.3/§4.3: `define` allocates the next index in the current scope
(outermost scope → Global, nested → Local); `define_builtin` assigns a
fixed index in the outermost scope; `resolve` walks outward, and a name
found in an enclosing scope that is neither global nor builtin is promoted
to a free variable of the current scope (the original symbol is appended
to `free_symbols`, and resolution returns a `Free` symbol with the new
index). -/

inductive SymScope : Type where
  | globalS
  | localS
  | builtinS
  | freeS
  deriving DecidableEq, Repr

/-- Scope label strings, appearing in compiler error messages. -/
def scopeString : SymScope → String
  | .globalS => "GLOBAL"
  | .localS => "LOCAL"
  | .builtinS => "BUILTIN"
  | .freeS => "FREE"

structure Symbol : Type where
  name : String
  scope : SymScope
  index : Nat
  deriving DecidableEq, Repr

inductive SymTab : Type where
  | mk (outer : Option SymTab) (store : List (String × Symbol))
      (freeSyms : List Symbol) (numDefs : Nat)

def SymTab.outerT : SymTab → Option SymTab
  | .mk o _ _ _ => o

def SymTab.store : SymTab → List (String × Symbol)
  | .mk _ s _ _ => s

def SymTab.freeSyms : SymTab → List Symbol
  | .mk _ _ f _ => f

def SymTab.numDefs : SymTab → Nat
  | .mk _ _ _ n => n

/-- `SymbolTable.Define`. -/
def SymTab.define : SymTab → String → Symbol × SymTab
  | .mk outer store free nd, name =>
    let scope : SymScope := if outer.isNone then .globalS else .localS
    let sym : Symbol := { name := name, scope := scope, index := nd }
    (sym, .mk outer ((name, sym) :: store) free (nd + 1))

/-- `SymbolTable.DefineBuiltin`. -/
def SymTab.defineBuiltin : SymTab → Nat → String → SymTab
  | .mk outer store free nd, i, name =>
    .mk outer ((name, { name := name, scope := .builtinS, index := i }) :: store) free nd

/-- Free-variable promotion: append the original symbol to the free list
and bind a `Free` symbol in the current scope. -/
def SymTab.defineFree : SymTab → Symbol → Symbol × SymTab
  | .mk outer store free nd, original =>
    let free2 := free ++ [original]
    let sym : Symbol := { name := original.name, scope := .freeS, index := free2.length - 1 }
    (sym, .mk outer ((original.name, sym) :: store) free2 nd)

/-- `SymbolTable.Resolve`, threading the table because promotion mutates
it. -/
def SymTab.resolve : SymTab → String → Option Symbol × SymTab
  | t@(.mk outer store free nd), name =>
    match store.lookup name with
    | some s => (some s, t)
    | none =>
      match outer with
      | none => (none, t)
      | some o =>
        let (r, o2) := o.resolve name
        let t2 : SymTab := .mk (some o2) store free nd
        match r with
        | none => (none, t2)
        | some s =>
          if s.scope = .globalS ∨ s.scope = .builtinS then (some s, t2)
          else
            let (f, t3) := t2.defineFree s
            (some f, t3)

/- ## Compiler (`compiler` package, compiler.go) -/

/-- `compiler.EmittedInstruction`. -/
structure EmittedInstruction : Type where
  opcode : Opcode
  position : Nat
  deriving DecidableEq, Repr

/-- Go zero value of `EmittedInstruction`: `Opcode(0)` and position 0. -/
def zeroEmitted : EmittedInstruction := { opcode := .opConstant, position := 0 }

/-- `compiler.CompilationScope`. -/
structure CompScope : Type where
  instructions : List Nat
  lastInstruction : EmittedInstruction
  previousInstruction : EmittedInstruction
  sourceMap : List (Nat × Nat)

def emptyScope : CompScope :=
  { instructions := [], lastInstruction := zeroEmitted,
    previousInstruction := zeroEmitted, sourceMap := [] }

/-- `compiler.Compiler`.  The scope stack `scopes[0..scopeIndex]` is split
into the current scope (`cur`, Go `scopes[scopeIndex]`) and the enclosing
ones (`outerScopes`, innermost first).  `symbolDefinitions` is the
per-node cache written by `scanSymbols`, keyed by the node id standing for
Go pointer identity. -/
structure CompSt : Type where
  constants : List Obj
  symTab : SymTab
  cur : CompScope
  outerScopes : List CompScope
  lastLine : Nat
  symbolDefinitions : List (Nat × List Symbol)

/-- `compiler.addConstant`: append and return the new constant's index. -/
def addConstant (st : CompSt) (o : Obj) : Nat × CompSt :=
  (st.constants.length, { st with constants := st.constants ++ [o] })

/-- Go map assignment `m[pos] = line` on the association-list model:
replace the binding when the key is present, append otherwise. -/
def smInsert (m : List (Nat × Nat)) (pos line : Nat) : List (Nat × Nat) :=
  if (m.lookup pos).isSome then
    m.map (fun p => if p.1 = pos then (pos, line) else p)
  else m ++ [(pos, line)]

/-- `compiler.emit`: append `opcode.Make(op, operands...)`, update the
last/previous emitted-instruction registers, and record
`sourceMap[pos] = lastLine` when a line is known (`lastLine > 0`).
Returns the new state and the position of the emitted opcode. -/
def emitC (st : CompSt) (op : Opcode) (operands : List Nat) : CompSt × Nat :=
  let bytes := make op operands
  let pos := st.cur.instructions.length
  let newSM :=
    if 0 < st.lastLine then smInsert st.cur.sourceMap pos st.lastLine
    else st.cur.sourceMap
  ({ st with cur :=
      { instructions := st.cur.instructions ++ bytes
        previousInstruction := st.cur.lastInstruction
        lastInstruction := { opcode := op, position := pos }
        sourceMap := newSM } }, pos)

/-- `compiler.lastInstructionIs`. -/
def lastInstructionIs (st : CompSt) (op : Opcode) : Bool :=
  if st.cur.instructions.length = 0 then false
  else st.cur.lastInstruction.opcode = op

/-- `compiler.removeLastPop`: truncate at the last instruction's position
and fall back to the previous instruction register. -/
def removeLastPop (st : CompSt) : CompSt :=
  { st with cur :=
      { st.cur with
        instructions := st.cur.instructions.take st.cur.lastInstruction.position
        lastInstruction := st.cur.previousInstruction } }

/-- In-place byte overwrite starting at `pos`
(`compiler.replaceInstruction`). -/
def overwriteFrom : List Nat → Nat → List Nat → List Nat
  | l, _, [] => l
  | [], _, _ => []
  | _ :: xs, 0, b :: bs => b :: overwriteFrom xs 0 bs
  | x :: xs, p + 1, bs => x :: overwriteFrom xs p bs

def replaceInstruction (st : CompSt) (pos : Nat) (newBytes : List Nat) : CompSt :=
  { st with cur := { st.cur with
      instructions := overwriteFrom st.cur.instructions pos newBytes } }

/-- `compiler.replaceLastPopWithReturn`. -/
def replaceLastPopWithReturn (st : CompSt) : CompSt :=
  let lastPos := st.cur.lastInstruction.position
  let st := replaceInstruction st lastPos (make .opReturnValue [])
  { st with cur := { st.cur with
      lastInstruction := { st.cur.lastInstruction with opcode := .opReturnValue } } }

/-- `compiler.changeOperand`: re-make the instruction at `opPos` with the
new operand and overwrite it in place. -/
def changeOperand (st : CompSt) (opPos operand : Nat) : CompSt :=
  match decodeOpcode (st.cur.instructions.getD opPos 0) with
  | some op => replaceInstruction st opPos (make op [operand])
  | none => st

/-- `compiler.enterScope`: push a fresh compilation scope and an enclosed
symbol table. -/
def enterScope (st : CompSt) : CompSt :=
  { st with cur := emptyScope
            outerScopes := st.cur :: st.outerScopes
            symTab := .mk (some st.symTab) [] [] 0 }

/-- `compiler.leaveScope`: pop the scope, returning its instructions and
source map, and restore the outer symbol table.  (Unbalanced calls cannot
happen: `leaveScope` is only invoked after `enterScope` in the function-
literal case.) -/
def leaveScope (st : CompSt) :
    Except String (List Nat × List (Nat × Nat) × CompSt) :=
  match st.outerScopes, st.symTab.outerT with
  | o :: os, some outerTab =>
    .ok (st.cur.instructions, st.cur.sourceMap,
      { st with cur := o, outerScopes := os, symTab := outerTab })
  | _, _ => .error "leaveScope at outermost scope"

/-- Sequential definition of declaration targets
(`symbols[i] = c.symbolTable.Define(name.Value)`). -/
def defineNames (t : SymTab) : List String → List Symbol × SymTab
  | [] => ([], t)
  | n :: ns =>
    let (s, t2) := t.define n
    let (ss, t3) := defineNames t2 ns
    (s :: ss, t3)

/-- `compiler.scanSymbols` (pre-scan of top-level declarations): define the
targets of every top-level let / short declaration and cache the symbols
per node. -/
def scanSymbols (st : CompSt) (stmts : List Node) : CompSt :=
  stmts.foldl
    (fun st s =>
      match s with
      | .letStmt nid _ names _ =>
        let (syms, t2) := defineNames st.symTab names
        { st with symTab := t2
                  symbolDefinitions := st.symbolDefinitions ++ [(nid, syms)] }
      | .shortVarDecl nid _ names _ =>
        let (syms, t2) := defineNames st.symTab names
        { st with symTab := t2
                  symbolDefinitions := st.symbolDefinitions ++ [(nid, syms)] }
      | _ => st)
    st

/-- Emission of the reversed store sequence shared by `LetStatement` and
`ShortVarDeclaration`: assign targets in reverse symbol order; global
symbols store through `SetGlobal`, all others through `SetLocal`. -/
def emitStoresReversed (st : CompSt) (symbols : List Symbol) : CompSt :=
  symbols.reverse.foldl
    (fun st symbol =>
      if symbol.scope = .globalS then (emitC st .opSetGlobal [symbol.index]).1
      else (emitC st .opSetLocal [symbol.index]).1)
    st

/-- Targets of a let / short declaration: the cached symbols from the
pre-scan when present, fresh definitions otherwise. -/
def declSymbols (st : CompSt) (nid : Nat) (names : List String) :
    List Symbol × CompSt :=
  match st.symbolDefinitions.lookup nid with
  | some syms => (syms, st)
  | none =>
    let (syms, t2) := defineNames st.symTab names
    (syms, { st with symTab := t2 })

mutual

/-- `compiler.Compile` (compiler.go lines 65-604): the full type switch,
one match arm per Go case, in source order.  Note that the switch has no
case for break or continue statements — they compile to nothing and
produce no error. -/
def compileNode : Node → CompSt → Except String CompSt
  | .program stmts, st => compileNodes stmts (scanSymbols st stmts)
  | .exprStmt line e, st => do
    let st ← compileNode e { st with lastLine := line }
    .ok (emitC st .opPop []).1
  | .binop line op l r, st =>
    let st := { st with lastLine := line }
    if op = "<" then do
      let st ← compileNode r st
      let st ← compileNode l st
      .ok (emitC st .opGreaterThan []).1
    else if op = "<=" then do
      let st ← compileNode l st
      let st ← compileNode r st
      let st := (emitC st .opGreaterThan []).1
      .ok (emitC st .opBang []).1
    else if op = ">=" then do
      let st ← compileNode r st
      let st ← compileNode l st
      let st := (emitC st .opGreaterThan []).1
      .ok (emitC st .opBang []).1
    else if op = "&&" then do
      let st ← compileNode l st
      let st := (emitC st .opDup []).1
      let (st, jumpPos) := emitC st .opJumpNotTruthy [9999]
      let st := (emitC st .opPop []).1
      let st ← compileNode r st
      let afterRightPos := st.cur.instructions.length
      .ok (changeOperand st jumpPos afterRightPos)
    else if op = "||" then do
      let st ← compileNode l st
      let st := (emitC st .opDup []).1
      let (st, jumpNotTruthyPos) := emitC st .opJumpNotTruthy [9999]
      let (st, jumpToEndPos) := emitC st .opJump [9999]
      let afterLeftPos := st.cur.instructions.length
      let st := changeOperand st jumpNotTruthyPos afterLeftPos
      let st := (emitC st .opPop []).1
      let st ← compileNode r st
      let afterRightPos := st.cur.instructions.length
      .ok (changeOperand st jumpToEndPos afterRightPos)
    else do
      let st ← compileNode l st
      let st ← compileNode r st
      if op = "+" then .ok (emitC st .opAdd []).1
      else if op = "-" then .ok (emitC st .opSub []).1
      else if op = "*" then .ok (emitC st .opMul []).1
      else if op = "/" then .ok (emitC st .opDiv []).1
      else if op = "%" then .ok (emitC st .opMod []).1
      else if op = ">" then .ok (emitC st .opGreaterThan []).1
      else if op = "==" then .ok (emitC st .opEqual []).1
      else if op = "!=" then .ok (emitC st .opNotEqual []).1
      else .error ("unknown operator " ++ op)
  | .intLit line v, st =>
    let st := { st with lastLine := line }
    let (idx, st) := addConstant st (.integer v)
    .ok (emitC st .opConstant [idx]).1
  | .floatLit line v, st =>
    let st := { st with lastLine := line }
    let (idx, st) := addConstant st (.float v)
    .ok (emitC st .opConstant [idx]).1
  | .boolLit line v, st =>
    let st := { st with lastLine := line }
    if v then .ok (emitC st .opTrue []).1 else .ok (emitC st .opFalse []).1
  | .unop line op r, st => do
    let st ← compileNode r { st with lastLine := line }
    if op = "!" then .ok (emitC st .opBang []).1
    else if op = "-" then .ok (emitC st .opMinus []).1
    else .error ("unknown operator " ++ op)
  | .ifExpr line cond cons alt, st => do
    let st ← compileNode cond { st with lastLine := line }
    let (st, jumpNotTruthyPos) := emitC st .opJumpNotTruthy [9999]
    let st ← compileNode cons st
    let st := if lastInstructionIs st .opPop then removeLastPop st else st
    let (st, jumpPos) := emitC st .opJump [9999]
    let afterConsequencePos := st.cur.instructions.length
    let st := changeOperand st jumpNotTruthyPos afterConsequencePos
    let st ←
      match alt with
      | none => .ok (emitC st .opNull []).1
      | some a => do
        let st ← compileNode a st
        .ok (if lastInstructionIs st .opPop then removeLastPop st else st)
    let afterAlternativePos := st.cur.instructions.length
    .ok (changeOperand st jumpPos afterAlternativePos)
  | .blockStmt stmts, st => compileNodes stmts st
  | .letStmt nid line names value, st => do
    let st := { st with lastLine := line }
    let (symbols, st) := declSymbols st nid names
    let st ← compileNode value st
    let st :=
      if 1 < names.length then (emitC st .opDestructure [names.length]).1 else st
    .ok (emitStoresReversed st symbols)
  | .shortVarDecl nid line names value, st => do
    let st := { st with lastLine := line }
    let (symbols, st) := declSymbols st nid names
    let st ← compileNode value st
    let st :=
      if 1 < names.length then (emitC st .opDestructure [names.length]).1 else st
    .ok (emitStoresReversed st symbols)
  | .assign line name value, st => do
    let st := { st with lastLine := line }
    let (res, t2) := st.symTab.resolve name
    let st := { st with symTab := t2 }
    match res with
    | none => .error ("variable " ++ name ++ " not defined")
    | some symbol => do
      let st ← compileNode value st
      if symbol.scope = .globalS then
        let st := (emitC st .opSetGlobal [symbol.index]).1
        .ok (emitC st .opGetGlobal [symbol.index]).1
      else if symbol.scope = .localS then
        let st := (emitC st .opSetLocal [symbol.index]).1
        .ok (emitC st .opGetLocal [symbol.index]).1
      else
        .error ("assignment to " ++ scopeString symbol.scope ++ " not supported")
  | .ident line name, st =>
    let st := { st with lastLine := line }
    let (res, t2) := st.symTab.resolve name
    let st := { st with symTab := t2 }
    match res with
    | none => .error ("undefined variable " ++ name)
    | some symbol =>
      if symbol.scope = .globalS then .ok (emitC st .opGetGlobal [symbol.index]).1
      else if symbol.scope = .localS then .ok (emitC st .opGetLocal [symbol.index]).1
      else if symbol.scope = .builtinS then .ok (emitC st .opGetBuiltin [symbol.index]).1
      else if symbol.scope = .freeS then .ok (emitC st .opGetFree [symbol.index]).1
      else .ok st
  | .strLit line s, st =>
    let st := { st with lastLine := line }
    let (idx, st) := addConstant st (.str s)
    .ok (emitC st .opConstant [idx]).1
  | .arrayLit line elems, st => do
    let st ← compileNodes elems { st with lastLine := line }
    .ok (emitC st .opArray [elems.length]).1
  | .mapLit line pairs, st => do
    let st ← compilePairs pairs { st with lastLine := line }
    .ok (emitC st .opHash [pairs.length * 2]).1
  | .indexExpr line left idx, st => do
    let st ← compileNode left { st with lastLine := line }
    let st ← compileNode idx st
    .ok (emitC st .opIndex []).1
  | .sliceExpr line left startE endE, st => do
    let st ← compileNode left { st with lastLine := line }
    let st ←
      match startE with
      | some s => compileNode s st
      | none => .ok (emitC st .opNull []).1
    let st ←
      match endE with
      | some e => compileNode e st
      | none => .ok (emitC st .opNull []).1
    .ok (emitC st .opSlice []).1
  | .funcLit line name params body, st => do
    let st := enterScope { st with lastLine := line }
    let st := params.foldl (fun st p => { st with symTab := (st.symTab.define p).2 }) st
    let st ← compileNode body st
    let st := if lastInstructionIs st .opPop then replaceLastPopWithReturn st else st
    let st :=
      if lastInstructionIs st .opReturnValue then st else (emitC st .opReturn []).1
    let freeSymbols := st.symTab.freeSyms
    let numLocals := st.symTab.numDefs
    let (instructions, sourceMap, st) ← leaveScope st
    let st := freeSymbols.foldl
      (fun st s =>
        if s.scope = .localS then (emitC st .opGetLocal [s.index]).1
        else if s.scope = .freeS then (emitC st .opGetFree [s.index]).1
        else st)
      st
    let compiledFn : Obj :=
      .compiledFunction instructions numLocals params.length sourceMap name
    let (constIdx, st) := addConstant st compiledFn
    .ok (emitC st .opClosure [constIdx, freeSymbols.length]).1
  | .nullLit line, st =>
    .ok (emitC { st with lastLine := line } .opNull []).1
  | .returnStmt line value, st => do
    let st := { st with lastLine := line }
    let st ←
      match value with
      | none => .ok (emitC st .opNull []).1
      | some v => compileNode v st
    .ok (emitC st .opReturnValue []).1
  | .callExpr line fn args, st => do
    let st ← compileNode fn { st with lastLine := line }
    let st ← compileNodes args st
    .ok (emitC st .opCall [args.length]).1
  | .forStmt line initS condE postS body, st => do
    let st := { st with lastLine := line }
    let st ←
      match initS with
      | some i => compileNode i st
      | none => .ok st
    let startPos := st.cur.instructions.length
    let (st, jumpNotTruthyPos) ←
      match condE with
      | some c => do
        let st ← compileNode c st
        let (st, p) := emitC st .opJumpNotTruthy [9999]
        .ok (st, some p)
      | none => .ok (st, (none : Option Nat))
    let st ← compileNode body st
    let st ←
      match postS with
      | some p => compileNode p st
      | none => .ok st
    let st := (emitC st .opJump [startPos]).1
    match jumpNotTruthyPos with
    | some p =>
      let afterBodyPos := st.cur.instructions.length
      .ok (changeOperand st p afterBodyPos)
    | none => .ok st
  | .breakStmt _, st => .ok st
  | .continueStmt _, st => .ok st

/-- The statement loops of the `Program` and `BlockStatement` cases. -/
def compileNodes : List Node → CompSt → Except String CompSt
  | [], st => .ok st
  | n :: ns, st => do
    let st ← compileNode n st
    compileNodes ns st

/-- The key/value loop of the `MapLiteral` case.  (The Go code iterates
the AST map in Go's map order; the model fixes the pair order of the
literal.) -/
def compilePairs : List (Node × Node) → CompSt → Except String CompSt
  | [], st => .ok st
  | (k, v) :: ps, st => do
    let st ← compileNode k st
    let st ← compileNode v st
    compilePairs ps st

end

/-- `compiler.New`: builtins installed by index in the outermost symbol
table, in the order of `object.Builtins` (builtins.go). -/
def builtinNames : List String :=
  ["len", "print", "panic", "push", "keys", "contains", "distance", "hypot",
   "sqrt", "atan2", "equalFold", "seed", "random", "randomInt", "randomItem",
   "now", "since", "testMultiReturn", "typeof"]

def newCompiler : CompSt :=
  { constants := []
    symTab :=
      (builtinNames.enum.foldl
        (fun t p => t.defineBuiltin p.1 p.2)
        (.mk none [] [] 0))
    cur := emptyScope
    outerScopes := []
    lastLine := 0
    symbolDefinitions := [] }

/- ## Array aliasing model for the slice operation

`object.Array` values are shared by reference; `executeSliceExpression`
ends with `make` + `copy`, allocating a fresh backing slice for the
result.  To state this aliasing fact, script arrays are given identities
into a heap of element lists; the slice computation itself is exactly
`executeSliceExpression`. -/

/-- Heap of script arrays: index = array identity, entry = its elements. -/
abbrev ArrHeap := List (List Obj)

/-- The heap-level effect of the `OpSlice` dispatch on an array with
identity `leftId`: compute the new elements via `executeSliceExpression`
and allocate them as a fresh array (`make([]object.Object, ...)` +
`copy`), returning the extended heap and the fresh identity. -/
def sliceAlloc (h : ArrHeap) (leftId : Nat) (startB endB : Obj) :
    ExecRes (ArrHeap × Nat) :=
  match executeSliceExpression (.array (h.getD leftId [])) startB endB with
  | .ok elems => .ok (h ++ [elems], h.length)
  | .err m => .err m
  | .goPanic m => .goPanic m

/-- In-place element write `arr[i] = v` through the array identity `id`
(mutation of a shared array). -/
def heapWrite (h : ArrHeap) (id i : Nat) (v : Obj) : ArrHeap :=
  h.set id ((h.getD id []).set i v)

/- ## Projections used by the concrete theorems

(Equalities of whole `VMState`s or `RunOutcome`s would need decidable
equality of `Obj`; the theorems instead project the facts of interest.) -/

/-- Kind, message and line of a script error outcome. -/
def outcomeErrInfo : RunOutcome × Nat → Option (ErrorKind × String × Nat)
  | (.scriptError e, _) => some (e.kind, e.message, e.line)
  | _ => none

/-- Stack trace of a script error outcome. -/
def outcomeTrace : RunOutcome × Nat → Option (List String)
  | (.scriptError e, _) => some e.stackTrace
  | _ => none

/-- Constructor tag of a run outcome. -/
def outcomeTag : RunOutcome × Nat → String
  | (.finished _, _) => "finished"
  | (.scriptError _, _) => "scriptError"
  | (.cancelled, _) => "cancelled"
  | (.goPanicO _, _) => "goPanic"
  | (.unmodelled, _) => "unmodelled"
  | (.fuelOut, _) => "fuelOut"

/-- Type strings of the value stack of a finished run, top first. -/
def outcomeStackTypes : RunOutcome × Nat → Option (List String)
  | (.finished st, _) => some (st.stack.map typeString)
  | _ => none

/-- Whether an `ExecRes` is the `err` (script-level error) case. -/
def resIsErr {α : Type} : ExecRes α → Bool
  | .err _ => true
  | _ => false

/-- Whether an `ExecRes Obj` holds a FLOAT result. -/
def resIsFloat : ExecRes Obj → Bool
  | .ok (.float _) => true
  | _ => false

/-- Kind, message and line of a parse result error. -/
def parseErrInfo : Except ScriptError Node → Option (ErrorKind × String × Nat)
  | .error e => some (e.kind, e.message, e.line)
  | .ok _ => none

/-- Instructions of the current scope after compiling a node from the
fresh compiler state (`compiler.New()`), when compilation succeeds. -/
def compiledBytes (n : Node) : Option (List Nat) :=
  match compileNode n newCompiler with
  | .ok st => some st.cur.instructions
  | .error _ => none

/-- Whether `left` is an `*ast.Identifier`. -/
def isIdentNode : Node → Bool
  | .ident _ _ => true
  | _ => false

/-- Whether an object is an `*object.Tuple`. -/
def isTupleObj : Obj → Bool
  | .tuple _ => true
  | _ => false

/- ## The compiler-extension invariant

`compileNode` only ever appends to the current scope's instruction buffer:
the peephole truncation (`removeLastPop`) and the jump patches
(`changeOperand`) stay within the bytes the node itself emitted.  The
invariant below captures what one compilation step preserves; it is proved
for every node in `compile_extends`, which lets the comparison-rewrite
claim derive the operand code blocks instead of assuming them. -/

/-- What a balanced compilation step preserves: the enclosing scope stack
is restored, the current scope's instructions are extended, and the
last/previous instruction registers either are untouched (when nothing was
emitted) or point at or after the old end of the buffer. -/
def Extends (st st2 : CompSt) : Prop :=
  st2.outerScopes = st.outerScopes ∧
  (∃ suf, st2.cur.instructions = st.cur.instructions ++ suf) ∧
  ((st2.cur.instructions = st.cur.instructions ∧
      st2.cur.lastInstruction = st.cur.lastInstruction ∧
      st2.cur.previousInstruction = st.cur.previousInstruction) ∨
    (st.cur.instructions.length ≤ st2.cur.lastInstruction.position ∧
      (st.cur.instructions.length ≤ st2.cur.previousInstruction.position ∨
        st2.cur.previousInstruction = st.cur.lastInstruction)))

/- ## Concrete bytecode programs exercised by the theorems -/

/-- `constants[0]; constants[1]; Div` — the code the compiler emits for a
division of two constants. -/
def divProgram : List Nat :=
  make .opConstant [0] ++ make .opConstant [1] ++ make .opDiv []

/-- `constants[0]; JumpNotTruthy 10` — a condition test on `constants[0]`. -/
def condProgram : List Nat :=
  make .opConstant [0] ++ make .opJumpNotTruthy [10]

/-- `Jump 0` — a tight infinite loop. -/
def jumpLoopProgram : List Nat := make .opJump [0]

/-- `constants[0]; Destructure 1`. -/
def destructureOneProgram : List Nat :=
  make .opConstant [0] ++ make .opDestructure [1]

/-- Ten one-byte `True` pushes followed by `Add`: the `Add` dispatch at
instruction offset 10 raises a runtime error with the frame's `ip` ten
bytes past offset 0. -/
def tenTrueAddProgram : List Nat :=
  List.replicate 10 (opcodeByte .opTrue) ++ make .opAdd []

/-- `constants[0]; Null; constants[1]; Slice` — slice `constants[0]` with
an absent start bound and `constants[1]` as end bound. -/
def sliceProgram : List Nat :=
  make .opConstant [0] ++ make .opNull [] ++ make .opConstant [1] ++ make .opSlice []

/- ## Claim theorems -/

set_option maxRecDepth 100000

/-- C1, counterexample.  The claim says integer `/` always yields a float
and a zero divisor raises a runtime error.  On the code, `5 / 2` evaluates
to the INTEGER 2 (no float), and `10 / 0` is a Go panic
(`integer divide by zero`) that crashes the run — not a script runtime
error. -/
theorem c1_counterexample :
    executeBinaryOperation .opDiv (.integer 5) (.integer 2) = .ok (.integer 2) ∧
    resIsFloat (executeBinaryOperation .opDiv (.integer 5) (.integer 2)) = false ∧
    executeBinaryOperation .opDiv (.integer 10) (.integer 0) =
      .goPanic "runtime error: integer divide by zero" ∧
    resIsErr (executeBinaryOperation .opDiv (.integer 10) (.integer 0)) = false ∧
    outcomeTag (runGo false 100 0
      (initState [.integer 5, .integer 2] divProgram [(0, 1)])) = "finished" ∧
    outcomeStackTypes (runGo false 100 0
      (initState [.integer 5, .integer 2] divProgram [(0, 1)])) = some ["INTEGER"] ∧
    outcomeTag (runGo false 100 0
      (initState [.integer 10, .integer 0] divProgram [(0, 1)])) = "goPanic" :=
  ⟨rfl, rfl, rfl, rfl, rfl, rfl, rfl⟩

/-- C1, amended: for integer operands, `/` yields an INTEGER — the
Go-truncated quotient, wrapping only at `MinInt64 / -1` — and `%` the
matching remainder; a zero divisor makes both crash with the Go runtime
panic "integer divide by zero" instead of raising a script runtime error.
No float promotion occurs. -/
theorem c1_integer_division (a b : Int) (hb : b ≠ 0) :
    executeBinaryOperation .opDiv (.integer a) (.integer b) =
      .ok (.integer (wrap64 (Int.tdiv a b))) ∧
    executeBinaryOperation .opMod (.integer a) (.integer b) =
      .ok (.integer (Int.tmod a b)) ∧
    resIsFloat (executeBinaryOperation .opDiv (.integer a) (.integer b)) = false ∧
    executeBinaryOperation .opDiv (.integer a) (.integer 0) =
      .goPanic "runtime error: integer divide by zero" ∧
    executeBinaryOperation .opMod (.integer a) (.integer 0) =
      .goPanic "runtime error: integer divide by zero" := by
  simp [executeBinaryOperation, executeBinaryIntegerOperation, typeString,
    integerValue, hb, resIsFloat]

/-- C1 witness. -/
theorem c1_integer_division_witness :
    executeBinaryOperation .opDiv (.integer 7) (.integer 2) =
      .ok (.integer (wrap64 (Int.tdiv 7 2))) ∧
    executeBinaryOperation .opMod (.integer 7) (.integer 2) =
      .ok (.integer (Int.tmod 7 2)) :=
  ⟨(c1_integer_division 7 2 (by decide)).1, (c1_integer_division 7 2 (by decide)).2.1⟩

/-- The truthiness table as the spec states it (§4.6.4): booleans use
their value; null is falsy; an integer or float is falsy iff zero; a
string is falsy iff empty; no other type has a truth value. -/
def specTruthiness : Obj → Option Bool
  | .boolean b => some b
  | .null => some false
  | .integer v => some (decide (v ≠ 0))
  | .float v => some (decide (v ≠ 0))
  | .str s => some (decide (s ≠ ""))
  | _ => none

/-- C2: `JumpIfFalsy` truthiness.  `isTruthy` agrees with the spec's table
on every typed value, and every operand of any other dynamic type (array,
hash, closure, builtin, compiled function, host object, tuple) produces
exactly the error "condition must be boolean, got <type>"; the
`OpJumpNotTruthy` dispatch turns that error into a runtime-kind script
error, as shown on the concrete array-condition program (the scenario of
`TestStrictTruthinessError`). -/
theorem c2_jump_if_falsy_truthiness (obj : Obj) :
    (∀ b, specTruthiness obj = some b → isTruthy obj = .ok b) ∧
    (specTruthiness obj = none →
      isTruthy obj = .err ("condition must be boolean, got " ++ typeString obj)) ∧
    outcomeErrInfo (runGo false 100 0
        (initState [.array []] condProgram [(0, 1), (3, 1)])) =
      some (.runtime, "condition must be boolean, got ARRAY", 1) := by
  refine ⟨?_, ?_, rfl⟩ <;> cases obj <;> simp [specTruthiness, isTruthy]

/-- C2 witness. -/
theorem c2_jump_if_falsy_truthiness_witness :
    isTruthy (Obj.integer 0) = .ok false ∧
    isTruthy (Obj.hashObj []) = .err "condition must be boolean, got HASH" :=
  ⟨(c2_jump_if_falsy_truthiness (Obj.integer 0)).1 false rfl,
   (c2_jump_if_falsy_truthiness (Obj.hashObj [])).2.1 rfl⟩

/-- C5, counterexample.  The claim says a non-tuple operand always raises
"cannot destructure non-tuple"; with operand count 1 the code instead
pushes the scalar back and the run finishes without error. -/
theorem c5_counterexample :
    destructureStep 1 (.integer 7) = .ok [.integer 7] ∧
    resIsErr (destructureStep 1 (.integer 7)) = false ∧
    outcomeTag (runGo false 100 0
      (initState [.integer 7] destructureOneProgram [(0, 1)])) = "finished" ∧
    outcomeStackTypes (runGo false 100 0
      (initState [.integer 7] destructureOneProgram [(0, 1)])) = some ["INTEGER"] :=
  ⟨rfl, rfl, rfl, rfl⟩

/-- C5, amended: a tuple shorter than the operand count `n` raises
"not enough values to unpack: have _, want _"; a tuple long enough pushes
its first `n` elements; a non-tuple raises "cannot destructure non-tuple
into n values" only when `n ≠ 1`, and with `n = 1` is pushed back
unchanged. -/
theorem c5_destructure_behavior (n : Nat) (elems : List Obj) (obj : Obj) :
    (elems.length < n →
      destructureStep n (.tuple elems) =
        .err ("not enough values to unpack: have " ++ toString elems.length ++
          ", want " ++ toString n)) ∧
    (n ≤ elems.length → destructureStep n (.tuple elems) = .ok (elems.take n)) ∧
    (isTupleObj obj = false → n ≠ 1 →
      destructureStep n obj =
        .err ("cannot destructure non-tuple into " ++ toString n ++ " values")) ∧
    (isTupleObj obj = false → destructureStep 1 obj = .ok [obj]) := by
  refine ⟨?_, ?_, ?_, ?_⟩
  · intro h
    simp [destructureStep, h]
  · intro h
    simp [destructureStep, Nat.not_lt.mpr h]
  · intro h hn
    cases obj <;> simp_all [destructureStep, isTupleObj]
  · intro h
    cases obj <;> simp_all [destructureStep, isTupleObj]

/-- C5 witness. -/
theorem c5_destructure_behavior_witness :
    destructureStep 3 (Obj.tuple [Obj.integer 1]) =
      .err "not enough values to unpack: have 1, want 3" ∧
    destructureStep 2 (Obj.str "x") =
      .err "cannot destructure non-tuple into 2 values" :=
  ⟨(c5_destructure_behavior 3 [Obj.integer 1] Obj.null).1 (by decide),
   (c5_destructure_behavior 2 [] (Obj.str "x")).2.2.1 rfl (by decide)⟩

/-- With the token already fired, the dispatch count from counter `c ≤
1023` is bounded by `1023 - c`: the boundary check aborts before
dispatching the instruction that takes the counter to 1024. -/
theorem runGo_cancelled_dispatch_bound (fuel : Nat) :
    ∀ opsCount st, opsCount ≤ 1023 →
      (runGo true fuel opsCount st).2 + opsCount ≤ 1023 := by
  induction fuel with
  | zero =>
    intro c st hc
    simpa [runGo] using hc
  | succ n ih =>
    intro c st hc
    unfold runGo
    split
    · split
      · rcases hb : (st.bumpIp 1).frame.ins[(st.bumpIp 1).frame.ip.toNat]? with _ | b <;>
          simp [List.get?_eq_getElem?, hb] <;> omega
      · rcases hb : (st.bumpIp 1).frame.ins[(st.bumpIp 1).frame.ip.toNat]? with _ | b
        · simp [List.get?_eq_getElem?, hb]; omega
        · rcases hd : decodeOpcode b with _ | op
          · simp [List.get?_eq_getElem?, hb, hd]; omega
          · rcases he : execInstr op (st.bumpIp 1) with h | st2
            · simp [List.get?_eq_getElem?, hb, hd, he]; omega
            · have hih := ih (c + 1) st2 (by omega)
              simp [List.get?_eq_getElem?, hb, hd, he]
              omega
    · simpa using hc

/-- From counter 1023 or above, the very first boundary check fires and
nothing further is dispatched. -/
theorem runGo_cancelled_immediate (fuel : Nat) (opsCount : Nat) (st : VMState)
    (hc : 1023 ≤ opsCount) : (runGo true fuel opsCount st).2 = 0 := by
  cases fuel with
  | zero => simp [runGo]
  | succ n =>
    unfold runGo
    split
    · split
      · rcases hb : (st.bumpIp 1).frame.ins[(st.bumpIp 1).frame.ip.toNat]? with _ | b <;>
          simp [List.get?_eq_getElem?, hb]
      · omega
    · rfl

/-- C6: after the cancellation token fires, the VM dispatches at most 1024
further instructions before aborting (in fact at most 1023), from any
counter value and any state; on the concrete tight loop the abort indeed
arrives as the `cancelled` outcome — the raw context error — after 1023
dispatched instructions.  A builtin invocation counts as its single
`OpCall` instruction. -/
theorem c6_cancellation_bound (fuel opsCount : Nat) (st : VMState) :
    (runGo true fuel opsCount st).2 ≤ 1024 ∧
    (runGo true 2000 0 (initState [] jumpLoopProgram [])).1 = .cancelled ∧
    (runGo true 2000 0 (initState [] jumpLoopProgram [])).2 = 1023 := by
  refine ⟨?_, rfl, rfl⟩
  rcases le_or_lt opsCount 1023 with h | h
  · have := runGo_cancelled_dispatch_bound fuel opsCount st h
    omega
  · have := runGo_cancelled_immediate fuel opsCount st (by omega)
    omega

/-- C4, counterexample.  The claim says error kinds include `Cancelled`
and that cancellation returns an error of that kind.  The `token`
package's `ErrorKind` constants are exactly Parse / Compile / Runtime —
none renders as "Cancelled" — and on cancellation the VM returns the
context's own error (`ctx.Err()`), which is not a `ScriptError` at all
and carries no frames. -/
theorem c4_counterexample :
    (runGo true 10 1023 (initState [] jumpLoopProgram [])).1 = .cancelled ∧
    outcomeErrInfo (runGo true 10 1023 (initState [] jumpLoopProgram [])) = none ∧
    outcomeTrace (runGo true 10 1023 (initState [] jumpLoopProgram [])) = none ∧
    outcomeTag (runGo true 10 1023 (initState [] jumpLoopProgram [])) = "cancelled" ∧
    kindString .parse ≠ "Cancelled" ∧
    kindString .compile ≠ "Cancelled" ∧
    kindString .runtime ≠ "Cancelled" :=
  ⟨rfl, rfl, rfl, rfl, by decide, by decide, by decide⟩

/-- C4, amended: every `ScriptError` kind is one of Parse / Compile /
Runtime (there is no Cancelled kind); when the cancellation token has
fired and the run is still live, the VM aborts at the next boundary check
by returning the context's raw error, which is not a `ScriptError` and
carries no frames. -/
theorem c4_error_kinds (k : ErrorKind) (fuel opsCount : Nat) (st : VMState)
    (hOps : 1023 ≤ opsCount)
    (hLive : st.frame.ip < (st.frame.ins.length : Int) - 1)
    (hFetch : (st.frame.ins.get? (st.frame.ip + 1).toNat).isSome) :
    (kindString k = "Parse error" ∨ kindString k = "Compile error" ∨
      kindString k = "Runtime error") ∧
    (runGo true (fuel + 1) opsCount st).1 = .cancelled ∧
    outcomeErrInfo (runGo true (fuel + 1) opsCount st) = none ∧
    outcomeTrace (runGo true (fuel + 1) opsCount st) = none := by
  have hrun : runGo true (fuel + 1) opsCount st = (.cancelled, 0) := by
    unfold runGo
    rw [if_pos hLive]
    have hbump : (st.bumpIp 1).frame.ins = st.frame.ins := rfl
    have hip : (st.bumpIp 1).frame.ip = st.frame.ip + 1 := rfl
    obtain ⟨b, hb⟩ := Option.isSome_iff_exists.mp hFetch
    simp only [hbump, hip, hb, if_pos (by omega : 1024 ≤ opsCount + 1), if_true]
  refine ⟨?_, ?_, ?_, ?_⟩
  · cases k <;> simp [kindString]
  · rw [hrun]
  · rw [hrun]; rfl
  · rw [hrun]; rfl

/-- A successful association-list lookup returns a stored pair. -/
theorem lookup_mem : ∀ {m : List (Nat × Nat)} {k v : Nat},
    m.lookup k = some v → (k, v) ∈ m := by
  intro m
  induction m with
  | nil => intro k v h; simp [List.lookup] at h
  | cons p rest ih =>
    intro k v h
    rcases p with ⟨a, b⟩
    by_cases hk : k = a
    · subst hk
      simp [List.lookup] at h
      simp [h]
    · simp only [List.lookup, beq_eq_false_iff_ne.mpr hk] at h
      exact List.mem_cons_of_mem _ (ih h)

/-- The backward scan of `translateIPToLine` returns a recorded line —
hence a value ≥ 1 when all recorded lines are — whenever some entry lies
within its remaining window. -/
theorem translateGo_pos (m : List (Nat × Nat)) (hpos : ∀ pr ∈ m, 1 ≤ pr.2) :
    ∀ (k : Nat) (p : Int), (∃ i : Nat, i < k ∧ (smLookup m (p - i)).isSome) →
      1 ≤ translateIPToLine.translateGo m p k := by
  intro k
  induction k with
  | zero =>
    rintro p ⟨i, hi, _⟩
    omega
  | succ j ih =>
    rintro p ⟨i, hi, hsome⟩
    rw [translateIPToLine.translateGo]
    rcases hl : smLookup m p with _ | l
    · have hshift : ∃ i : Nat, i < j ∧ (smLookup m (p - 1 - i)).isSome := by
        rcases i with _ | i2
        · rw [show p - ((0 : Nat) : Int) = p by simp] at hsome
          rw [hl] at hsome
          simp at hsome
        · refine ⟨i2, by omega, ?_⟩
          have harith : p - 1 - (i2 : Int) = p - ((i2 + 1 : Nat) : Int) := by
            push_cast
            ring
          rw [harith]
          exact hsome
      simp only [hl]
      exact ih (p - 1) hshift
    · have hv : (p.toNat, l) ∈ m := by
        unfold smLookup at hl
        split at hl
        · exact lookup_mem hl
        · exact absurd hl (by simp)
      simp only [hl]
      exact hpos _ hv

/-- C7, counterexample.  Ten one-byte `True` pushes then `Add`: the error
is raised with the frame's ip at offset 10, and the function's only
source-map entry sits at offset 0 (line 3) — at/before the ip, but outside
`translateIPToLine`'s 10-position window — so the frame reports line 0,
violating the claimed "line ≥ 1".  (`vm.New` accepts any bytecode bundle;
the compiler's own emission keeps entries within the window, see the
amended theorem.) -/
theorem c7_counterexample :
    outcomeErrInfo (runGo false 100 0 (initState [] tenTrueAddProgram [(0, 3)])) =
      some (.runtime, "unsupported types for binary operation: BOOLEAN BOOLEAN", 0) ∧
    outcomeTrace (runGo false 100 0 (initState [] tenTrueAddProgram [(0, 3)])) =
      some ["main (line 0)"] ∧
    smLookup [(0, 3)] 0 = some 3 ∧
    translateIPToLine [(0, 3)] 10 = 0 :=
  ⟨rfl, rfl, rfl, rfl⟩

/-- A source-map entry within the 10-position lookback window of the
frame's instruction pointer. -/
def windowHit (f : Frame) : Prop :=
  ∃ i : Nat, i < 10 ∧ (smLookup f.sourceMap (f.ip - i)).isSome

/-- All recorded lines of a frame's source map are ≥ 1 (the compiler's
`emit` records entries only when `lastLine > 0`). -/
def linesPos (f : Frame) : Prop := ∀ pr ∈ f.sourceMap, 1 ≤ pr.2

/-- C7, amended: every runtime error built by `newRuntimeError` carries a
non-empty stack trace (one entry per live frame; the frame stack is never
empty while the VM runs), and every frame whose function has a source-map
entry — with recorded lines ≥ 1 — within the 10-position lookback window
at or before that frame's current instruction pointer reports a line ≥ 1;
the current frame's `line` field likewise. -/
theorem c7_stack_trace_lines (top : Frame) (rest : List Frame) (msg : String) :
    (newRuntimeError top rest msg).stackTrace ≠ [] ∧
    (newRuntimeError top rest msg).kind = .runtime ∧
    (newRuntimeError top rest msg).stackTrace =
      (top :: rest).map frameTraceEntry ∧
    (∀ f ∈ top :: rest, windowHit f → linesPos f →
      1 ≤ translateIPToLine f.sourceMap f.ip) ∧
    (windowHit top → linesPos top → 1 ≤ (newRuntimeError top rest msg).line) := by
  refine ⟨by simp [newRuntimeError], rfl, rfl, ?_, ?_⟩
  · intro f _ hw hp
    exact translateGo_pos f.sourceMap hp 10 f.ip hw
  · intro hw hp
    exact translateGo_pos top.sourceMap hp 10 top.ip hw

/-- C7 witness. -/
theorem c7_stack_trace_lines_witness :
    1 ≤ (newRuntimeError ⟨"main", [(2, 7)], 5⟩ [] "boom").line ∧
    (newRuntimeError ⟨"main", [(2, 7)], 5⟩ [] "boom").stackTrace ≠ [] :=
  ⟨(c7_stack_trace_lines ⟨"main", [(2, 7)], 5⟩ [] "boom").2.2.2.2
      ⟨3, by omega, by rfl⟩
      (by intro pr hpr
          obtain rfl := List.mem_singleton.mp hpr
          decide),
   (c7_stack_trace_lines ⟨"main", [(2, 7)], 5⟩ [] "boom").1⟩

/-- C3, counterexample.  The claim says a `break`/`continue` outside a
loop is a runtime error and that inside a for-loop the compiler emits and
patches placeholder jumps for them.  On the code, `break` lexes to the
`BREAK` keyword, `parseStatement` has no case for it, and the expression
parser records the parse error "no prefix parse function for BREAK found"
— a parse error, not a runtime error, and parse errors prevent execution.
The compiler's for-loop, compiled over a body containing a break
statement, emits exactly the same bytes as over an empty body
(`True, JumpNotTruthy 7, Jump 0`): no placeholder jump exists for the
break, and a bare break node compiles to no instructions and no error. -/
theorem c3_counterexample :
    lookupIdent "break" = "BREAK" ∧
    parseStatementBranch "BREAK" "EOF" = .exprStmtB ∧
    parseExpressionEntryError "BREAK" 1 =
      some { kind := .parse, message := "no prefix parse function for BREAK found"
             line := 1, column := 0, file := "", function := "", stackTrace := [] } ∧
    ErrorKind.parse ≠ ErrorKind.runtime ∧
    compiledBytes (.forStmt 1 none (some (.boolLit 1 true)) none
        (.blockStmt [.breakStmt 2])) =
      some ((make .opTrue [] ++ make .opJumpNotTruthy [7]) ++ make .opJump [0]) ∧
    compiledBytes (.forStmt 1 none (some (.boolLit 1 true)) none (.blockStmt [])) =
      compiledBytes (.forStmt 1 none (some (.boolLit 1 true)) none
        (.blockStmt [.breakStmt 2])) ∧
    compiledBytes (.breakStmt 1) = some [] :=
  ⟨rfl, rfl, rfl, by decide, rfl, rfl, rfl⟩

/-- C3, amended: a `break` or `continue` anywhere — inside or outside a
loop — is rejected at parse time: the statement parser has no case for the
BREAK/CONTINUE keywords, so they reach the expression parser, which
records the parse error "no prefix parse function for BREAK/CONTINUE
found"; parse errors prevent execution, so no runtime error ever arises.
The compiler maintains no break/continue patch lists: its switch has no
case for break/continue nodes, which therefore compile to no instructions
and no error (they would be silently ignored). -/
theorem c3_break_continue (peek : TokenType) (line : Nat) (st : CompSt)
    (ln : Nat) :
    parseStatementBranch "BREAK" peek = .exprStmtB ∧
    parseStatementBranch "CONTINUE" peek = .exprStmtB ∧
    parseExpressionEntryError "BREAK" line =
      some { kind := .parse, message := "no prefix parse function for BREAK found"
             line := line, column := 0, file := "", function := "", stackTrace := [] } ∧
    parseExpressionEntryError "CONTINUE" line =
      some { kind := .parse
             message := "no prefix parse function for CONTINUE found"
             line := line, column := 0, file := "", function := "", stackTrace := [] } ∧
    compileNode (.breakStmt ln) st = .ok st ∧
    compileNode (.continueStmt ln) st = .ok st := by
  refine ⟨?_, ?_, rfl, rfl, rfl, rfl⟩ <;>
    simp [parseStatementBranch, assignDeclareTok]

/-- C8, counterexample.  The claim says index expressions are accepted as
assignment targets; the parser instead records a parse error at the `=`
token for an index-expression left-hand side (`a[0] = 1`). -/
theorem c8_counterexample :
    parseAssignExpression (.indexExpr 4 (.ident 4 "a") (.intLit 4 0)) 4
        (.intLit 4 1) =
      .error { kind := .parse
               message := "expected identifier on left side of assignment, got *ast.IndexExpression"
               line := 4, column := 0, file := "", function := "", stackTrace := [] } :=
  rfl

/-- C8, amended: the parser accepts exactly identifiers as the left-hand
side of `=`; for every other expression form — member and index
expressions included — it records a parse error at the `=` token. -/
theorem c8_assignment_lhs (left value : Node) (line : Nat) :
    (∀ l name, left = .ident l name →
      parseAssignExpression left line value = .ok (.assign line name value)) ∧
    (isIdentNode left = false →
      parseAssignExpression left line value =
        .error { kind := .parse
                 message := "expected identifier on left side of assignment, got " ++
                   goTypeName left
                 line := line, column := 0, file := "", function := ""
                 stackTrace := [] }) := by
  constructor
  · rintro l name rfl
    rfl
  · intro h
    cases left <;> simp_all [isIdentNode] <;> rfl

/-- C8 witness. -/
theorem c8_assignment_lhs_witness :
    parseAssignExpression (.ident 2 "x") 2 (.intLit 2 9) =
      .ok (.assign 2 "x" (.intLit 2 9)) ∧
    parseAssignExpression (.intLit 3 5) 3 (.intLit 3 9) =
      .error { kind := .parse
               message := "expected identifier on left side of assignment, got *ast.IntegerLiteral"
               line := 3, column := 0, file := "", function := "", stackTrace := [] } :=
  ⟨(c8_assignment_lhs (.ident 2 "x") (.intLit 2 9) 2).1 2 "x" rfl,
   (c8_assignment_lhs (.intLit 3 5) (.intLit 3 9) 3).2 rfl⟩

/-- `emit` only appends: the new instruction buffer is the old one
followed by the made bytes. -/
theorem emitC_instructions (st : CompSt) (op : Opcode) (ops : List Nat) :
    (emitC st op ops).1.cur.instructions = st.cur.instructions ++ make op ops := rfl

/-- Reduction of the `"<"` arm of the infix case of `compileNode`. -/
theorem compileNode_binop_lt (line : Nat) (a b : Node) (st : CompSt) :
    compileNode (.binop line "<" a b) st =
      Bind.bind (compileNode b { st with lastLine := line }) (fun st1 =>
        Bind.bind (compileNode a st1) (fun st2 =>
          Except.ok (emitC st2 .opGreaterThan []).1)) := rfl

/-- Reduction of the `"<="` arm. -/
theorem compileNode_binop_le (line : Nat) (a b : Node) (st : CompSt) :
    compileNode (.binop line "<=" a b) st =
      Bind.bind (compileNode a { st with lastLine := line }) (fun st1 =>
        Bind.bind (compileNode b st1) (fun st2 =>
          Except.ok (emitC (emitC st2 .opGreaterThan []).1 .opBang []).1)) := rfl

/-- Reduction of the `">="` arm. -/
theorem compileNode_binop_ge (line : Nat) (a b : Node) (st : CompSt) :
    compileNode (.binop line ">=" a b) st =
      Bind.bind (compileNode b { st with lastLine := line }) (fun st1 =>
        Bind.bind (compileNode a st1) (fun st2 =>
          Except.ok (emitC (emitC st2 .opGreaterThan []).1 .opBang []).1)) := rfl

/-- Reduction of the default arm at operator `">"`. -/
theorem compileNode_binop_gt (line : Nat) (a b : Node) (st : CompSt) :
    compileNode (.binop line ">" a b) st =
      Bind.bind (compileNode a { st with lastLine := line }) (fun st1 =>
        Bind.bind (compileNode b st1) (fun st2 =>
          Except.ok (emitC st2 .opGreaterThan []).1)) := rfl

/-- Reduction of the default arm at operator `"=="`. -/
theorem compileNode_binop_eq (line : Nat) (a b : Node) (st : CompSt) :
    compileNode (.binop line "==" a b) st =
      Bind.bind (compileNode a { st with lastLine := line }) (fun st1 =>
        Bind.bind (compileNode b st1) (fun st2 =>
          Except.ok (emitC st2 .opEqual []).1)) := rfl

/-- Reduction of the default arm at operator `"!="`. -/
theorem compileNode_binop_ne (line : Nat) (a b : Node) (st : CompSt) :
    compileNode (.binop line "!=" a b) st =
      Bind.bind (compileNode a { st with lastLine := line }) (fun st1 =>
        Bind.bind (compileNode b st1) (fun st2 =>
          Except.ok (emitC st2 .opNotEqual []).1)) := rfl

theorem okBind {alpha beta : Type} (x : alpha) (f : alpha -> Except String beta) :
    Bind.bind (Except.ok x) f = f x := rfl

/- ## Extension-invariant infrastructure -/

theorem extendsRefl (st : CompSt) : Extends st st :=
  ⟨rfl, ⟨[], by simp⟩, Or.inl ⟨rfl, rfl, rfl⟩⟩

theorem extendsTrans {s1 s2 s3 : CompSt}
    (h12 : Extends s1 s2) (h23 : Extends s2 s3) : Extends s1 s3 := by
  obtain ⟨ho12, ⟨suf12, hs12⟩, hc12⟩ := h12
  obtain ⟨ho23, ⟨suf23, hs23⟩, hc23⟩ := h23
  have hlen : s1.cur.instructions.length ≤ s2.cur.instructions.length := by
    rw [hs12]; simp
  refine ⟨ho23.trans ho12,
    ⟨suf12 ++ suf23, by rw [hs23, hs12, List.append_assoc]⟩, ?_⟩
  rcases hc23 with ⟨hi, hl, hp⟩ | ⟨hl, hp⟩
  · rcases hc12 with ⟨hi1, hl1, hp1⟩ | ⟨hl1, hp1⟩
    · exact Or.inl ⟨hi.trans hi1, hl.trans hl1, hp.trans hp1⟩
    · refine Or.inr ⟨by rw [hl]; exact hl1, ?_⟩
      rcases hp1 with h | h
      · exact Or.inl (by rw [hp]; exact h)
      · exact Or.inr (by rw [hp]; exact h)
  · refine Or.inr ⟨by omega, ?_⟩
    rcases hp with h | h
    · exact Or.inl (by omega)
    · rcases hc12 with ⟨hi1, hl1, hp1⟩ | ⟨hl1, hp1⟩
      · exact Or.inr (by rw [h]; exact hl1)
      · exact Or.inl (by rw [h]; omega)

theorem extends_of_parts {st st2 : CompSt}
    (ho : st2.outerScopes = st.outerScopes)
    (hc : st2.cur = st.cur) : Extends st st2 :=
  ⟨ho, ⟨[], by rw [hc]; simp⟩,
    Or.inl ⟨by rw [hc], by rw [hc], by rw [hc]⟩⟩

theorem extends_lastLine (st : CompSt) (line : Nat) :
    Extends st { st with lastLine := line } :=
  extends_of_parts rfl rfl

theorem extends_set_symtab (st : CompSt) (line : Nat) (t2 : SymTab) :
    Extends st { st with lastLine := line, symTab := t2 } :=
  extends_of_parts rfl rfl

theorem extends_addConst (st : CompSt) (o : Obj) :
    Extends st (addConstant st o).2 :=
  extends_of_parts rfl rfl

theorem extends_emit (st : CompSt) (op : Opcode) (ops : List Nat) :
    Extends st (emitC st op ops).1 :=
  ⟨rfl, ⟨make op ops, rfl⟩, Or.inr ⟨Nat.le_refl _, Or.inr rfl⟩⟩

theorem extends_foldl {α : Type} {f : CompSt → α → CompSt}
    (hf : ∀ s x, Extends s (f s x)) :
    ∀ (l : List α) (s : CompSt), Extends s (l.foldl f s)
  | [], s => extendsRefl s
  | x :: xs, s => extendsTrans (hf s x) (extends_foldl hf xs (f s x))

theorem bind_ok_elim {α β : Type} {x : Except String α} {f : α → Except String β}
    {b : β} (h : Bind.bind x f = .ok b) : ∃ a, x = .ok a ∧ f a = .ok b := by
  cases x with
  | ok a => exact ⟨a, rfl, h⟩
  | error e => exact absurd h (by simp [Bind.bind, Except.bind])

theorem overwriteFrom_small (bs : List Nat) :
    ∀ (l : List Nat) (pos : Nat), l.length ≤ pos → overwriteFrom l pos bs = l := by
  cases bs with
  | nil => intro l pos _; cases l <;> simp [overwriteFrom]
  | cons b bs2 =>
    intro l
    induction l with
    | nil => intro pos _; rfl
    | cons x xs ih =>
      intro pos hpos
      cases pos with
      | zero => simp at hpos
      | succ p =>
        show x :: overwriteFrom xs p (b :: bs2) = x :: xs
        rw [ih p (by simpa using hpos)]

theorem overwriteFrom_append (bs l2 : List Nat) :
    ∀ (l1 : List Nat) (pos : Nat), l1.length ≤ pos →
      overwriteFrom (l1 ++ l2) pos bs =
        l1 ++ overwriteFrom l2 (pos - l1.length) bs := by
  cases bs with
  | nil => intro l1 pos _; simp [overwriteFrom]
  | cons b bs2 =>
    intro l1
    induction l1 with
    | nil => intro pos _; simp
    | cons x xs ih =>
      intro pos hpos
      cases pos with
      | zero => simp at hpos
      | succ p =>
        show x :: overwriteFrom (xs ++ l2) p (b :: bs2) = x :: (xs ++ _)
        rw [ih p (by simpa using hpos)]
        simp [Nat.succ_sub_one]

theorem take_append_ge (l1 l2 : List Nat) (n : Nat) (h : l1.length ≤ n) :
    (l1 ++ l2).take n = l1 ++ l2.take (n - l1.length) := by
  rw [List.take_append_eq_append_take, List.take_of_length_le h]

theorem extends_changeOperand {st0 s : CompSt} (pos operand : Nat)
    (hExt : Extends st0 s) (hpos : st0.cur.instructions.length ≤ pos) :
    Extends st0 (changeOperand s pos operand) := by
  unfold changeOperand
  cases decodeOpcode (s.cur.instructions.getD pos 0) with
  | none => exact hExt
  | some op =>
    obtain ⟨ho, ⟨suf, hsuf⟩, hc⟩ := hExt
    refine ⟨ho, ?_, ?_⟩
    · refine ⟨overwriteFrom suf (pos - st0.cur.instructions.length) (make op [operand]), ?_⟩
      show overwriteFrom s.cur.instructions pos _ = _
      rw [hsuf, overwriteFrom_append _ _ _ _ hpos]
    · rcases hc with ⟨hi, hl, hp⟩ | ⟨hl, hp⟩
      · refine Or.inl ⟨?_, hl, hp⟩
        show overwriteFrom s.cur.instructions pos _ = _
        rw [hi, overwriteFrom_small _ _ _ hpos]
      · exact Or.inr ⟨hl, hp⟩

theorem extends_guarded_remove {base s2 s3 : CompSt}
    (h02 : Extends base s2)
    (h23 : Extends s2 s3)
    (hlast2 : base.cur.instructions.length ≤ s2.cur.lastInstruction.position)
    (hops : s2.cur.lastInstruction.opcode ≠ .opPop)
    (hguard : lastInstructionIs s3 .opPop = true) :
    Extends base (removeLastPop s3) := by
  obtain ⟨ho2, ⟨suf2, hsuf2⟩, _⟩ := h02
  obtain ⟨ho3, ⟨suf3, hsuf3⟩, hc3⟩ := h23
  have hlen2 : base.cur.instructions.length ≤ s2.cur.instructions.length := by
    rw [hsuf2]; simp
  rcases hc3 with ⟨hi, hl, hp⟩ | ⟨hl, hp⟩
  · exfalso
    unfold lastInstructionIs at hguard
    rw [hl] at hguard
    split at hguard
    · exact Bool.false_ne_true hguard
    · exact hops (of_decide_eq_true hguard)
  · have hsuf03 : s3.cur.instructions = base.cur.instructions ++ (suf2 ++ suf3) := by
      rw [hsuf3, hsuf2, List.append_assoc]
    have hlpos : base.cur.instructions.length ≤ s3.cur.lastInstruction.position := by
      omega
    refine ⟨ho3.trans ho2, ?_, ?_⟩
    · refine ⟨(suf2 ++ suf3).take
        (s3.cur.lastInstruction.position - base.cur.instructions.length), ?_⟩
      show s3.cur.instructions.take s3.cur.lastInstruction.position = _
      rw [hsuf03, take_append_ge _ _ _ hlpos]
    · refine Or.inr ⟨?_, ?_⟩
      · show base.cur.instructions.length ≤ s3.cur.previousInstruction.position
        rcases hp with h | h
        · omega
        · rw [h]; omega
      · show base.cur.instructions.length ≤ s3.cur.previousInstruction.position ∨
          s3.cur.previousInstruction = base.cur.lastInstruction
        rcases hp with h | h
        · exact Or.inl (by omega)
        · exact Or.inl (by rw [h]; omega)

theorem changeOperand_last (s : CompSt) (p o : Nat) :
    (changeOperand s p o).cur.lastInstruction = s.cur.lastInstruction := by
  unfold changeOperand
  cases decodeOpcode (s.cur.instructions.getD p 0) <;> rfl

theorem extends_len {st st2 : CompSt} (h : Extends st st2) :
    st.cur.instructions.length ≤ st2.cur.instructions.length := by
  obtain ⟨_, ⟨suf, hs⟩, _⟩ := h
  rw [hs]; simp

theorem extends_scanSymbols (st : CompSt) (stmts : List Node) :
    Extends st (scanSymbols st stmts) := by
  unfold scanSymbols
  refine extends_foldl ?_ stmts st
  intro s x
  cases x
  case letStmt nid line names value =>
    dsimp only
    rcases hd : defineNames s.symTab names with ⟨syms, t2⟩
    exact extends_of_parts rfl rfl
  case shortVarDecl nid line names value =>
    dsimp only
    rcases hd : defineNames s.symTab names with ⟨syms, t2⟩
    exact extends_of_parts rfl rfl
  all_goals exact extendsRefl s

theorem declSymbols_extends (st : CompSt) (nid : Nat) (names : List String) :
    Extends st (declSymbols st nid names).2 := by
  unfold declSymbols
  cases hl : st.symbolDefinitions.lookup nid with
  | some syms => exact extendsRefl st
  | none =>
    rcases hd : defineNames st.symTab names with ⟨syms, t2⟩
    exact extends_of_parts rfl rfl

theorem extends_emitStores (st : CompSt) (symbols : List Symbol) :
    Extends st (emitStoresReversed st symbols) := by
  unfold emitStoresReversed
  refine extends_foldl ?_ symbols.reverse st
  intro s x
  dsimp only
  split
  · exact extends_emit s .opSetGlobal [x.index]
  · exact extends_emit s .opSetLocal [x.index]

theorem extends_replaceLastPop_zero {base s : CompSt} (h : Extends base s)
    (hzero : base.cur.instructions = []) :
    Extends base (replaceLastPopWithReturn s) := by
  obtain ⟨ho, ⟨suf, hsuf⟩, _⟩ := h
  refine ⟨ho, ?_, Or.inr ⟨?_, Or.inl ?_⟩⟩
  · exact ⟨overwriteFrom s.cur.instructions s.cur.lastInstruction.position
      (make .opReturnValue []), by rw [hzero]; rfl⟩
  · rw [hzero]; exact Nat.zero_le _
  · rw [hzero]; exact Nat.zero_le _

mutual

/-- `compileNode` only appends to the current scope's instruction buffer
and restores the enclosing scope stack. -/
theorem compile_extends : ∀ (n : Node) (st st2 : CompSt),
    compileNode n st = .ok st2 → Extends st st2
  | .program stmts, st, st2 => fun h =>
    extendsTrans (extends_scanSymbols st stmts)
      (compileNodes_extends stmts _ _ h)
  | .exprStmt line e, st, st2 => by
    intro h
    obtain ⟨s1, h1, h2⟩ := bind_ok_elim h
    injection h2 with h2
    subst h2
    exact extendsTrans (extends_lastLine st line)
      (extendsTrans (compile_extends e _ _ h1) (extends_emit s1 .opPop []))
  | .binop line op l r, st, st2 => by
    intro h
    have h' :
        (if op = "<" then
          Bind.bind (compileNode r { st with lastLine := line }) (fun s =>
            Bind.bind (compileNode l s) (fun t =>
              Except.ok (emitC t .opGreaterThan []).1))
        else if op = "<=" then
          Bind.bind (compileNode l { st with lastLine := line }) (fun s =>
            Bind.bind (compileNode r s) (fun t =>
              Except.ok (emitC (emitC t .opGreaterThan []).1 .opBang []).1))
        else if op = ">=" then
          Bind.bind (compileNode r { st with lastLine := line }) (fun s =>
            Bind.bind (compileNode l s) (fun t =>
              Except.ok (emitC (emitC t .opGreaterThan []).1 .opBang []).1))
        else if op = "&&" then
          Bind.bind (compileNode l { st with lastLine := line }) (fun s =>
            Bind.bind (compileNode r
                (emitC (emitC (emitC s .opDup []).1 .opJumpNotTruthy [9999]).1
                  .opPop []).1) (fun t =>
              Except.ok (changeOperand t
                (emitC (emitC s .opDup []).1 .opJumpNotTruthy [9999]).2
                t.cur.instructions.length)))
        else if op = "||" then
          Bind.bind (compileNode l { st with lastLine := line }) (fun s =>
            Bind.bind (compileNode r
                (emitC (changeOperand
                    (emitC (emitC (emitC s .opDup []).1 .opJumpNotTruthy [9999]).1
                      .opJump [9999]).1
                    (emitC (emitC s .opDup []).1 .opJumpNotTruthy [9999]).2
                    (emitC (emitC (emitC s .opDup []).1 .opJumpNotTruthy [9999]).1
                      .opJump [9999]).1.cur.instructions.length)
                  .opPop []).1) (fun t =>
              Except.ok (changeOperand t
                (emitC (emitC (emitC s .opDup []).1 .opJumpNotTruthy [9999]).1
                  .opJump [9999]).2
                t.cur.instructions.length)))
        else
          Bind.bind (compileNode l { st with lastLine := line }) (fun s =>
            Bind.bind (compileNode r s) (fun t =>
              if op = "+" then Except.ok (emitC t .opAdd []).1
              else if op = "-" then Except.ok (emitC t .opSub []).1
              else if op = "*" then Except.ok (emitC t .opMul []).1
              else if op = "/" then Except.ok (emitC t .opDiv []).1
              else if op = "%" then Except.ok (emitC t .opMod []).1
              else if op = ">" then Except.ok (emitC t .opGreaterThan []).1
              else if op = "==" then Except.ok (emitC t .opEqual []).1
              else if op = "!=" then Except.ok (emitC t .opNotEqual []).1
              else Except.error ("unknown operator " ++ op)))) = .ok st2 := h
    clear h
    by_cases hop1 : op = "<"
    · rw [if_pos hop1] at h'
      obtain ⟨s, hr, h'⟩ := bind_ok_elim h'
      obtain ⟨t, hl, h'⟩ := bind_ok_elim h'
      injection h' with h2
      subst h2
      exact extendsTrans (extends_lastLine st line)
        (extendsTrans (compile_extends r _ _ hr)
          (extendsTrans (compile_extends l _ _ hl)
            (extends_emit t .opGreaterThan [])))
    rw [if_neg hop1] at h'
    by_cases hop2 : op = "<="
    · rw [if_pos hop2] at h'
      obtain ⟨s, hl, h'⟩ := bind_ok_elim h'
      obtain ⟨t, hr, h'⟩ := bind_ok_elim h'
      injection h' with h2
      subst h2
      exact extendsTrans (extends_lastLine st line)
        (extendsTrans (compile_extends l _ _ hl)
          (extendsTrans (compile_extends r _ _ hr)
            (extendsTrans (extends_emit t .opGreaterThan [])
              (extends_emit _ .opBang []))))
    rw [if_neg hop2] at h'
    by_cases hop3 : op = ">="
    · rw [if_pos hop3] at h'
      obtain ⟨s, hr, h'⟩ := bind_ok_elim h'
      obtain ⟨t, hl, h'⟩ := bind_ok_elim h'
      injection h' with h2
      subst h2
      exact extendsTrans (extends_lastLine st line)
        (extendsTrans (compile_extends r _ _ hr)
          (extendsTrans (compile_extends l _ _ hl)
            (extendsTrans (extends_emit t .opGreaterThan [])
              (extends_emit _ .opBang []))))
    rw [if_neg hop3] at h'
    by_cases hop4 : op = "&&"
    · rw [if_pos hop4] at h'
      obtain ⟨s, hl, h'⟩ := bind_ok_elim h'
      obtain ⟨t, hr, h'⟩ := bind_ok_elim h'
      injection h' with h2
      subst h2
      have E1 : Extends st (emitC (emitC (emitC s .opDup []).1
          .opJumpNotTruthy [9999]).1 .opPop []).1 :=
        extendsTrans (extends_lastLine st line)
          (extendsTrans (compile_extends l _ _ hl)
            (extendsTrans (extends_emit s .opDup [])
              (extendsTrans (extends_emit _ .opJumpNotTruthy [9999])
                (extends_emit _ .opPop []))))
      have E2 : Extends st t := extendsTrans E1 (compile_extends r _ _ hr)
      have hpos : st.cur.instructions.length ≤
          (emitC s .opDup []).1.cur.instructions.length :=
        extends_len (extendsTrans (extends_lastLine st line)
          (extendsTrans (compile_extends l _ _ hl) (extends_emit s .opDup [])))
      exact extends_changeOperand _ _ E2 hpos
    rw [if_neg hop4] at h'
    by_cases hop5 : op = "||"
    · rw [if_pos hop5] at h'
      obtain ⟨s, hl, h'⟩ := bind_ok_elim h'
      obtain ⟨t, hr, h'⟩ := bind_ok_elim h'
      injection h' with h2
      subst h2
      have EL : Extends st (emitC (emitC (emitC s .opDup []).1
          .opJumpNotTruthy [9999]).1 .opJump [9999]).1 :=
        extendsTrans (extends_lastLine st line)
          (extendsTrans (compile_extends l _ _ hl)
            (extendsTrans (extends_emit s .opDup [])
              (extendsTrans (extends_emit _ .opJumpNotTruthy [9999])
                (extends_emit _ .opJump [9999]))))
      have hposJnt : st.cur.instructions.length ≤
          (emitC s .opDup []).1.cur.instructions.length :=
        extends_len (extendsTrans (extends_lastLine st line)
          (extendsTrans (compile_extends l _ _ hl) (extends_emit s .opDup [])))
      have EP : Extends st (emitC (changeOperand
          (emitC (emitC (emitC s .opDup []).1 .opJumpNotTruthy [9999]).1
            .opJump [9999]).1
          (emitC (emitC s .opDup []).1 .opJumpNotTruthy [9999]).2
          (emitC (emitC (emitC s .opDup []).1 .opJumpNotTruthy [9999]).1
            .opJump [9999]).1.cur.instructions.length)
          .opPop []).1 :=
        extendsTrans (extends_changeOperand _ _ EL hposJnt)
          (extends_emit _ .opPop [])
      have E2 : Extends st t := extendsTrans EP (compile_extends r _ _ hr)
      have hposJte : st.cur.instructions.length ≤
          (emitC (emitC s .opDup []).1
            .opJumpNotTruthy [9999]).1.cur.instructions.length :=
        extends_len (extendsTrans (extends_lastLine st line)
          (extendsTrans (compile_extends l _ _ hl)
            (extendsTrans (extends_emit s .opDup [])
              (extends_emit _ .opJumpNotTruthy [9999]))))
      exact extends_changeOperand _ _ E2 hposJte
    rw [if_neg hop5] at h'
    obtain ⟨s, hl, h'⟩ := bind_ok_elim h'
    obtain ⟨t, hr, h'⟩ := bind_ok_elim h'
    have E2 : Extends st t :=
      extendsTrans (extends_lastLine st line)
        (extendsTrans (compile_extends l _ _ hl)
          (compile_extends r _ _ hr))
    by_cases hop6 : op = "+"
    · rw [if_pos hop6] at h'
      injection h' with h2
      subst h2
      exact extendsTrans E2 (extends_emit t .opAdd [])
    rw [if_neg hop6] at h'
    by_cases hop7 : op = "-"
    · rw [if_pos hop7] at h'
      injection h' with h2
      subst h2
      exact extendsTrans E2 (extends_emit t .opSub [])
    rw [if_neg hop7] at h'
    by_cases hop8 : op = "*"
    · rw [if_pos hop8] at h'
      injection h' with h2
      subst h2
      exact extendsTrans E2 (extends_emit t .opMul [])
    rw [if_neg hop8] at h'
    by_cases hop9 : op = "/"
    · rw [if_pos hop9] at h'
      injection h' with h2
      subst h2
      exact extendsTrans E2 (extends_emit t .opDiv [])
    rw [if_neg hop9] at h'
    by_cases hop10 : op = "%"
    · rw [if_pos hop10] at h'
      injection h' with h2
      subst h2
      exact extendsTrans E2 (extends_emit t .opMod [])
    rw [if_neg hop10] at h'
    by_cases hop11 : op = ">"
    · rw [if_pos hop11] at h'
      injection h' with h2
      subst h2
      exact extendsTrans E2 (extends_emit t .opGreaterThan [])
    rw [if_neg hop11] at h'
    by_cases hop12 : op = "=="
    · rw [if_pos hop12] at h'
      injection h' with h2
      subst h2
      exact extendsTrans E2 (extends_emit t .opEqual [])
    rw [if_neg hop12] at h'
    by_cases hop13 : op = "!="
    · rw [if_pos hop13] at h'
      injection h' with h2
      subst h2
      exact extendsTrans E2 (extends_emit t .opNotEqual [])
    rw [if_neg hop13] at h'
    exact Except.noConfusion h'
  | .intLit line v, st, st2 => by
    intro h
    injection h with h2
    subst h2
    exact extendsTrans (extends_lastLine st line)
      (extendsTrans (extends_addConst _ _) (extends_emit _ .opConstant _))
  | .floatLit line v, st, st2 => by
    intro h
    injection h with h2
    subst h2
    exact extendsTrans (extends_lastLine st line)
      (extendsTrans (extends_addConst _ _) (extends_emit _ .opConstant _))
  | .boolLit line v, st, st2 => by
    intro h
    cases v
    · injection h with h2
      subst h2
      exact extendsTrans (extends_lastLine st line) (extends_emit _ .opFalse [])
    · injection h with h2
      subst h2
      exact extendsTrans (extends_lastLine st line) (extends_emit _ .opTrue [])
  | .unop line op r, st, st2 => by
    intro h
    obtain ⟨s, hr, h'⟩ := bind_ok_elim h
    have h'' : (if op = "!" then Except.ok (emitC s .opBang []).1
        else if op = "-" then Except.ok (emitC s .opMinus []).1
        else Except.error ("unknown operator " ++ op)) = .ok st2 := h'
    have E1 : Extends st s :=
      extendsTrans (extends_lastLine st line) (compile_extends r _ _ hr)
    split at h''
    · injection h'' with h2; subst h2
      exact extendsTrans E1 (extends_emit s .opBang [])
    · split at h''
      · injection h'' with h2; subst h2
        exact extendsTrans E1 (extends_emit s .opMinus [])
      · exact Except.noConfusion h''
  | .ifExpr line cond cons alt, st, st2 => by
    intro h
    rcases alt with _ | a
    · obtain ⟨s1, hcond, h⟩ := bind_ok_elim h
      obtain ⟨s3, hcons, h⟩ := bind_ok_elim h
      injection h with h2
      subst h2
      have E1 : Extends st s1 :=
        extendsTrans (extends_lastLine st line) (compile_extends _ _ _ hcond)
      have E2 : Extends st (emitC s1 .opJumpNotTruthy [9999]).1 :=
        extendsTrans E1 (extends_emit s1 .opJumpNotTruthy [9999])
      have E3 : Extends (emitC s1 .opJumpNotTruthy [9999]).1 s3 :=
        compile_extends _ _ _ hcons
      have E4 : Extends st
          (if lastInstructionIs s3 .opPop then removeLastPop s3 else s3) := by
        by_cases hpop : lastInstructionIs s3 .opPop = true
        · rw [if_pos hpop]
          exact extends_guarded_remove E2 E3 (extends_len E1)
            (fun hc => Opcode.noConfusion hc) hpop
        · rw [if_neg hpop]
          exact extendsTrans E2 E3
      have E5 : Extends st (emitC
          (if lastInstructionIs s3 .opPop then removeLastPop s3 else s3)
          .opJump [9999]).1 :=
        extendsTrans E4 (extends_emit _ .opJump [9999])
      have E6 : Extends st (changeOperand
          (emitC (if lastInstructionIs s3 .opPop then removeLastPop s3 else s3)
            .opJump [9999]).1
          (emitC s1 .opJumpNotTruthy [9999]).2
          (emitC (if lastInstructionIs s3 .opPop then removeLastPop s3 else s3)
            .opJump [9999]).1.cur.instructions.length) :=
        extends_changeOperand _ _ E5 (extends_len E1)
      exact extends_changeOperand _ _
        (extendsTrans E6 (extends_emit _ .opNull [])) (extends_len E4)
    · obtain ⟨s1, hcond, h⟩ := bind_ok_elim h
      obtain ⟨s3, hcons, h⟩ := bind_ok_elim h
      obtain ⟨s7, ha, h⟩ := bind_ok_elim h
      injection h with h2
      subst h2
      have E1 : Extends st s1 :=
        extendsTrans (extends_lastLine st line) (compile_extends _ _ _ hcond)
      have E2 : Extends st (emitC s1 .opJumpNotTruthy [9999]).1 :=
        extendsTrans E1 (extends_emit s1 .opJumpNotTruthy [9999])
      have E3 : Extends (emitC s1 .opJumpNotTruthy [9999]).1 s3 :=
        compile_extends _ _ _ hcons
      have E4 : Extends st
          (if lastInstructionIs s3 .opPop then removeLastPop s3 else s3) := by
        by_cases hpop : lastInstructionIs s3 .opPop = true
        · rw [if_pos hpop]
          exact extends_guarded_remove E2 E3 (extends_len E1)
            (fun hc => Opcode.noConfusion hc) hpop
        · rw [if_neg hpop]
          exact extendsTrans E2 E3
      have E5 : Extends st (emitC
          (if lastInstructionIs s3 .opPop then removeLastPop s3 else s3)
          .opJump [9999]).1 :=
        extendsTrans E4 (extends_emit _ .opJump [9999])
      have E6 : Extends st (changeOperand
          (emitC (if lastInstructionIs s3 .opPop then removeLastPop s3 else s3)
            .opJump [9999]).1
          (emitC s1 .opJumpNotTruthy [9999]).2
          (emitC (if lastInstructionIs s3 .opPop then removeLastPop s3 else s3)
            .opJump [9999]).1.cur.instructions.length) :=
        extends_changeOperand _ _ E5 (extends_len E1)
      have E7 := compile_extends _ _ _ ha
      have E8 : Extends st
          (if lastInstructionIs s7 .opPop then removeLastPop s7 else s7) := by
        by_cases hpop2 : lastInstructionIs s7 .opPop = true
        · rw [if_pos hpop2]
          refine extends_guarded_remove E6 E7 ?_ ?_ hpop2
          · rw [changeOperand_last]
            exact extends_len E4
          · rw [changeOperand_last]
            exact fun hc => Opcode.noConfusion hc
        · rw [if_neg hpop2]
          exact extendsTrans E6 E7
      exact extends_changeOperand _ _ E8 (extends_len E4)
  | .blockStmt stmts, st, st2 => fun h => compileNodes_extends stmts _ _ h
  | .letStmt nid line names value, st, st2 => by
    intro h
    have h' : (match declSymbols { st with lastLine := line } nid names with
        | (symbols, stD) =>
          Bind.bind (compileNode value stD) (fun sv =>
            Except.ok (emitStoresReversed
              (if 1 < names.length then
                (emitC sv .opDestructure [names.length]).1 else sv)
              symbols))) = .ok st2 := h
    clear h
    rcases hd : declSymbols { st with lastLine := line } nid names with ⟨symbols, stD⟩
    rw [hd] at h'
    obtain ⟨sv, hv, h'⟩ := bind_ok_elim h'
    injection h' with h2
    subst h2
    have E0 : Extends st stD := by
      have hds := declSymbols_extends { st with lastLine := line } nid names
      rw [hd] at hds
      exact extendsTrans (extends_lastLine st line) hds
    have E1 : Extends st sv := extendsTrans E0 (compile_extends value _ _ hv)
    have E2 : Extends st (if 1 < names.length then
        (emitC sv .opDestructure [names.length]).1 else sv) := by
      by_cases hn : 1 < names.length
      · rw [if_pos hn]
        exact extendsTrans E1 (extends_emit sv .opDestructure [names.length])
      · rw [if_neg hn]
        exact E1
    exact extendsTrans E2 (extends_emitStores _ symbols)
  | .shortVarDecl nid line names value, st, st2 => by
    intro h
    have h' : (match declSymbols { st with lastLine := line } nid names with
        | (symbols, stD) =>
          Bind.bind (compileNode value stD) (fun sv =>
            Except.ok (emitStoresReversed
              (if 1 < names.length then
                (emitC sv .opDestructure [names.length]).1 else sv)
              symbols))) = .ok st2 := h
    clear h
    rcases hd : declSymbols { st with lastLine := line } nid names with ⟨symbols, stD⟩
    rw [hd] at h'
    obtain ⟨sv, hv, h'⟩ := bind_ok_elim h'
    injection h' with h2
    subst h2
    have E0 : Extends st stD := by
      have hds := declSymbols_extends { st with lastLine := line } nid names
      rw [hd] at hds
      exact extendsTrans (extends_lastLine st line) hds
    have E1 : Extends st sv := extendsTrans E0 (compile_extends value _ _ hv)
    have E2 : Extends st (if 1 < names.length then
        (emitC sv .opDestructure [names.length]).1 else sv) := by
      by_cases hn : 1 < names.length
      · rw [if_pos hn]
        exact extendsTrans E1 (extends_emit sv .opDestructure [names.length])
      · rw [if_neg hn]
        exact E1
    exact extendsTrans E2 (extends_emitStores _ symbols)
  | .assign line name value, st, st2 => by
    intro h
    have h' : (match st.symTab.resolve name with
        | (res, t2) =>
          match res with
          | none => Except.error ("variable " ++ name ++ " not defined")
          | some symbol =>
            Bind.bind (compileNode value
                { st with lastLine := line, symTab := t2 }) (fun sv =>
              if symbol.scope = SymScope.globalS then
                Except.ok (emitC (emitC sv .opSetGlobal [symbol.index]).1
                  .opGetGlobal [symbol.index]).1
              else if symbol.scope = SymScope.localS then
                Except.ok (emitC (emitC sv .opSetLocal [symbol.index]).1
                  .opGetLocal [symbol.index]).1
              else Except.error ("assignment to " ++ scopeString symbol.scope ++
                " not supported"))) = .ok st2 := h
    clear h
    rcases hr : st.symTab.resolve name with ⟨res, t2⟩
    rw [hr] at h'
    cases res with
    | none => exact Except.noConfusion h'
    | some symbol =>
      obtain ⟨sv, hv, h''⟩ := bind_ok_elim h'
      have E1 : Extends st sv :=
        extendsTrans (extends_set_symtab st line t2) (compile_extends value _ _ hv)
      have h3 : (if symbol.scope = SymScope.globalS then
          Except.ok (emitC (emitC sv .opSetGlobal [symbol.index]).1
            .opGetGlobal [symbol.index]).1
        else if symbol.scope = SymScope.localS then
          Except.ok (emitC (emitC sv .opSetLocal [symbol.index]).1
            .opGetLocal [symbol.index]).1
        else Except.error ("assignment to " ++ scopeString symbol.scope ++
          " not supported")) = .ok st2 := h''
      split at h3
      · injection h3 with h2; subst h2
        exact extendsTrans E1 (extendsTrans
          (extends_emit sv .opSetGlobal [symbol.index])
          (extends_emit _ .opGetGlobal [symbol.index]))
      · split at h3
        · injection h3 with h2; subst h2
          exact extendsTrans E1 (extendsTrans
            (extends_emit sv .opSetLocal [symbol.index])
            (extends_emit _ .opGetLocal [symbol.index]))
        · exact Except.noConfusion h3
  | .ident line name, st, st2 => by
    intro h
    have h' : (match st.symTab.resolve name with
        | (res, t2) =>
          match res with
          | none => Except.error ("undefined variable " ++ name)
          | some symbol =>
            if symbol.scope = SymScope.globalS then
              Except.ok (emitC { st with lastLine := line, symTab := t2 }
                .opGetGlobal [symbol.index]).1
            else if symbol.scope = SymScope.localS then
              Except.ok (emitC { st with lastLine := line, symTab := t2 }
                .opGetLocal [symbol.index]).1
            else if symbol.scope = SymScope.builtinS then
              Except.ok (emitC { st with lastLine := line, symTab := t2 }
                .opGetBuiltin [symbol.index]).1
            else if symbol.scope = SymScope.freeS then
              Except.ok (emitC { st with lastLine := line, symTab := t2 }
                .opGetFree [symbol.index]).1
            else Except.ok { st with lastLine := line, symTab := t2 })
        = .ok st2 := h
    clear h
    rcases hr : st.symTab.resolve name with ⟨res, t2⟩
    rw [hr] at h'
    cases res with
    | none => exact Except.noConfusion h'
    | some symbol =>
      have E0 : Extends st { st with lastLine := line, symTab := t2 } :=
        extends_set_symtab st line t2
      have h3 : (if symbol.scope = SymScope.globalS then
          Except.ok (emitC { st with lastLine := line, symTab := t2 }
            .opGetGlobal [symbol.index]).1
        else if symbol.scope = SymScope.localS then
          Except.ok (emitC { st with lastLine := line, symTab := t2 }
            .opGetLocal [symbol.index]).1
        else if symbol.scope = SymScope.builtinS then
          Except.ok (emitC { st with lastLine := line, symTab := t2 }
            .opGetBuiltin [symbol.index]).1
        else if symbol.scope = SymScope.freeS then
          Except.ok (emitC { st with lastLine := line, symTab := t2 }
            .opGetFree [symbol.index]).1
        else Except.ok { st with lastLine := line, symTab := t2 })
          = .ok st2 := h'
      clear h'
      split at h3
      · injection h3 with h2; subst h2
        exact extendsTrans E0 (extends_emit _ .opGetGlobal [symbol.index])
      · split at h3
        · injection h3 with h2; subst h2
          exact extendsTrans E0 (extends_emit _ .opGetLocal [symbol.index])
        · split at h3
          · injection h3 with h2; subst h2
            exact extendsTrans E0 (extends_emit _ .opGetBuiltin [symbol.index])
          · split at h3
            · injection h3 with h2; subst h2
              exact extendsTrans E0 (extends_emit _ .opGetFree [symbol.index])
            · injection h3 with h2; subst h2
              exact E0
  | .strLit line s, st, st2 => by
    intro h
    injection h with h2
    subst h2
    exact extendsTrans (extends_lastLine st line)
      (extendsTrans (extends_addConst _ _) (extends_emit _ .opConstant _))
  | .arrayLit line elems, st, st2 => by
    intro h
    obtain ⟨s1, h1, h2⟩ := bind_ok_elim h
    injection h2 with h2
    subst h2
    exact extendsTrans (extends_lastLine st line)
      (extendsTrans (compileNodes_extends elems _ _ h1)
        (extends_emit s1 .opArray [elems.length]))
  | .mapLit line pairs, st, st2 => by
    intro h
    obtain ⟨s1, h1, h2⟩ := bind_ok_elim h
    injection h2 with h2
    subst h2
    exact extendsTrans (extends_lastLine st line)
      (extendsTrans (compilePairs_extends pairs _ _ h1)
        (extends_emit s1 .opHash [pairs.length * 2]))
  | .indexExpr line left idx, st, st2 => by
    intro h
    obtain ⟨s1, h1, h⟩ := bind_ok_elim h
    obtain ⟨s2, h2, h⟩ := bind_ok_elim h
    injection h with h3
    subst h3
    exact extendsTrans (extends_lastLine st line)
      (extendsTrans (compile_extends left _ _ h1)
        (extendsTrans (compile_extends idx _ _ h2)
          (extends_emit s2 .opIndex [])))
  | .sliceExpr line left startE endE, st, st2 => by
    intro h
    rcases startE with _ | sE <;> rcases endE with _ | eE
    · obtain ⟨s1, h1, h⟩ := bind_ok_elim h
      injection h with h4
      subst h4
      exact extendsTrans (extends_lastLine st line)
        (extendsTrans (compile_extends _ _ _ h1)
          (extendsTrans (extends_emit s1 .opNull [])
            (extendsTrans (extends_emit _ .opNull []) (extends_emit _ .opSlice []))))
    · obtain ⟨s1, h1, h⟩ := bind_ok_elim h
      obtain ⟨s2, h2, h⟩ := bind_ok_elim h
      obtain ⟨s3, h3, h⟩ := bind_ok_elim h
      injection h with h4
      subst h4
      injection h2 with h2e
      subst h2e
      exact extendsTrans (extends_lastLine st line)
        (extendsTrans (compile_extends _ _ _ h1)
          (extendsTrans (extends_emit s1 .opNull [])
            (extendsTrans (compile_extends _ _ _ h3) (extends_emit s3 .opSlice []))))
    · obtain ⟨s1, h1, h⟩ := bind_ok_elim h
      obtain ⟨s2, h2, h⟩ := bind_ok_elim h
      injection h with h4
      subst h4
      exact extendsTrans (extends_lastLine st line)
        (extendsTrans (compile_extends _ _ _ h1)
          (extendsTrans (compile_extends _ _ _ h2)
            (extendsTrans (extends_emit s2 .opNull []) (extends_emit _ .opSlice []))))
    · obtain ⟨s1, h1, h⟩ := bind_ok_elim h
      obtain ⟨s2, h2, h⟩ := bind_ok_elim h
      obtain ⟨s3, h3, h⟩ := bind_ok_elim h
      injection h with h4
      subst h4
      exact extendsTrans (extends_lastLine st line)
        (extendsTrans (compile_extends _ _ _ h1)
          (extendsTrans (compile_extends _ _ _ h2)
            (extendsTrans (compile_extends _ _ _ h3) (extends_emit s3 .opSlice []))))
  | .funcLit line name params body, st, st2 => by
    intro h
    obtain ⟨sB, hbody, h⟩ := bind_ok_elim h
    obtain ⟨⟨ins, sm, sL⟩, hleave, h⟩ := bind_ok_elim h
    injection h with h2
    subst h2
    have hfold : ∀ (s : CompSt) (p : String),
        Extends s { s with symTab := (s.symTab.define p).2 } :=
      fun s p => extends_of_parts rfl rfl
    have E_PB : Extends (enterScope { st with lastLine := line }) sB :=
      extendsTrans
        (extends_foldl hfold params (enterScope { st with lastLine := line }))
        (compile_extends body _ _ hbody)
    have E_R : Extends (enterScope { st with lastLine := line })
        (if lastInstructionIs sB .opPop then replaceLastPopWithReturn sB
         else sB) := by
      by_cases hp : lastInstructionIs sB .opPop = true
      · rw [if_pos hp]
        exact extends_replaceLastPop_zero E_PB rfl
      · rw [if_neg hp]
        exact E_PB
    have E_Ret : Extends (enterScope { st with lastLine := line })
        (if lastInstructionIs
            (if lastInstructionIs sB .opPop then replaceLastPopWithReturn sB
             else sB) .opReturnValue then
          (if lastInstructionIs sB .opPop then replaceLastPopWithReturn sB
           else sB)
         else (emitC (if lastInstructionIs sB .opPop then
            replaceLastPopWithReturn sB else sB) .opReturn []).1) := by
      by_cases hrv : lastInstructionIs
          (if lastInstructionIs sB .opPop then replaceLastPopWithReturn sB
           else sB) .opReturnValue = true
      · rw [if_pos hrv]
        exact E_R
      · rw [if_neg hrv]
        exact extendsTrans E_R (extends_emit _ .opReturn [])
    obtain ⟨hoRet, _, _⟩ := E_Ret
    have hleave2 : leaveScope (if lastInstructionIs
        (if lastInstructionIs sB .opPop then replaceLastPopWithReturn sB
         else sB) .opReturnValue then
          (if lastInstructionIs sB .opPop then replaceLastPopWithReturn sB
           else sB)
         else (emitC (if lastInstructionIs sB .opPop then
            replaceLastPopWithReturn sB else sB) .opReturn []).1)
        = .ok (ins, sm, sL) := hleave
    clear hleave
    unfold leaveScope at hleave2
    rw [hoRet] at hleave2
    cases hT : (if lastInstructionIs
        (if lastInstructionIs sB .opPop then replaceLastPopWithReturn sB
         else sB) .opReturnValue then
          (if lastInstructionIs sB .opPop then replaceLastPopWithReturn sB
           else sB)
         else (emitC (if lastInstructionIs sB .opPop then
            replaceLastPopWithReturn sB else sB) .opReturn []).1).symTab.outerT with
    | none =>
      rw [hT] at hleave2
      exact Except.noConfusion hleave2
    | some oT =>
      rw [hT] at hleave2
      injection hleave2 with h10
      injection h10 with h10a h10b
      injection h10b with h10c h10d
      have E_sL : Extends st sL := by
        rw [← h10d]
        exact extends_of_parts rfl rfl
      have hstep : ∀ (s : CompSt) (x : Symbol), Extends s
          (if x.scope = SymScope.localS then (emitC s .opGetLocal [x.index]).1
           else if x.scope = SymScope.freeS then (emitC s .opGetFree [x.index]).1
           else s) := by
        intro s x
        split
        · exact extends_emit s .opGetLocal [x.index]
        · split
          · exact extends_emit s .opGetFree [x.index]
          · exact extendsRefl s
      exact extendsTrans E_sL (extendsTrans (extends_foldl hstep _ sL)
        (extendsTrans (extends_addConst _ _) (extends_emit _ .opClosure _)))
  | .nullLit line, st, st2 => by
    intro h
    injection h with h2
    subst h2
    exact extendsTrans (extends_lastLine st line) (extends_emit _ .opNull [])
  | .returnStmt line value, st, st2 => by
    intro h
    rcases value with _ | v
    · injection h with h2
      subst h2
      exact extendsTrans (extends_lastLine st line)
        (extendsTrans (extends_emit _ .opNull []) (extends_emit _ .opReturnValue []))
    · obtain ⟨s1, h1, h⟩ := bind_ok_elim h
      injection h with h2
      subst h2
      exact extendsTrans (extends_lastLine st line)
        (extendsTrans (compile_extends _ _ _ h1) (extends_emit s1 .opReturnValue []))
  | .callExpr line fn args, st, st2 => by
    intro h
    obtain ⟨s1, h1, h⟩ := bind_ok_elim h
    obtain ⟨s2, h2, h⟩ := bind_ok_elim h
    injection h with h3
    subst h3
    exact extendsTrans (extends_lastLine st line)
      (extendsTrans (compile_extends fn _ _ h1)
        (extendsTrans (compileNodes_extends args _ _ h2)
          (extends_emit s2 .opCall [args.length])))
  | .forStmt line initS condE postS body, st, st2 => by
    intro h
    rcases initS with _ | i <;> rcases condE with _ | c <;> rcases postS with _ | p
    · obtain ⟨s1, hinit, h⟩ := bind_ok_elim h
      obtain ⟨⟨sC, jnt⟩, hpr, h⟩ := bind_ok_elim h
      obtain ⟨s3, hbody, h⟩ := bind_ok_elim h
      obtain ⟨s4, hpost, h⟩ := bind_ok_elim h
      injection hinit with hx1
      subst hx1
      injection hpr with hx2
      injection hx2 with hx3 hx4
      subst hx3
      subst hx4
      injection hpost with hx5
      subst hx5
      injection h with h2
      subst h2
      have E1 : Extends st { st with lastLine := line } :=
        extends_lastLine st line
      have EB : Extends st s3 := extendsTrans E1 (compile_extends _ _ _ hbody)
      have EP : Extends st s3 := EB
      exact extendsTrans EP (extends_emit _ .opJump _)
    · obtain ⟨s1, hinit, h⟩ := bind_ok_elim h
      obtain ⟨⟨sC, jnt⟩, hpr, h⟩ := bind_ok_elim h
      obtain ⟨s3, hbody, h⟩ := bind_ok_elim h
      obtain ⟨s4, hpost, h⟩ := bind_ok_elim h
      injection hinit with hx1
      subst hx1
      injection hpr with hx2
      injection hx2 with hx3 hx4
      subst hx3
      subst hx4
      injection h with h2
      subst h2
      have E1 : Extends st { st with lastLine := line } :=
        extends_lastLine st line
      have EB : Extends st s3 := extendsTrans E1 (compile_extends _ _ _ hbody)
      have EP : Extends st s4 := extendsTrans EB (compile_extends _ _ _ hpost)
      exact extendsTrans EP (extends_emit _ .opJump _)
    · obtain ⟨s1, hinit, h⟩ := bind_ok_elim h
      obtain ⟨sc0, hc0, h⟩ := bind_ok_elim h
      obtain ⟨⟨sC, jnt⟩, hpr, h⟩ := bind_ok_elim h
      obtain ⟨s3, hbody, h⟩ := bind_ok_elim h
      obtain ⟨s4, hpost, h⟩ := bind_ok_elim h
      injection hinit with hx1
      subst hx1
      injection hpr with hx2
      injection hx2 with hx3 hx4
      subst hx3
      subst hx4
      injection hpost with hx5
      subst hx5
      injection h with h2
      subst h2
      have E1 : Extends st { st with lastLine := line } :=
        extends_lastLine st line
      have E0 : Extends st sc0 := extendsTrans E1 (compile_extends _ _ _ hc0)
      have EC : Extends st (emitC sc0 .opJumpNotTruthy [9999]).1 :=
        extendsTrans E0 (extends_emit sc0 .opJumpNotTruthy [9999])
      have EB : Extends st s3 := extendsTrans EC (compile_extends _ _ _ hbody)
      have EP : Extends st s3 := EB
      exact extends_changeOperand _ _
        (extendsTrans EP (extends_emit _ .opJump _)) (extends_len E0)
    · obtain ⟨s1, hinit, h⟩ := bind_ok_elim h
      obtain ⟨sc0, hc0, h⟩ := bind_ok_elim h
      obtain ⟨⟨sC, jnt⟩, hpr, h⟩ := bind_ok_elim h
      obtain ⟨s3, hbody, h⟩ := bind_ok_elim h
      obtain ⟨s4, hpost, h⟩ := bind_ok_elim h
      injection hinit with hx1
      subst hx1
      injection hpr with hx2
      injection hx2 with hx3 hx4
      subst hx3
      subst hx4
      injection h with h2
      subst h2
      have E1 : Extends st { st with lastLine := line } :=
        extends_lastLine st line
      have E0 : Extends st sc0 := extendsTrans E1 (compile_extends _ _ _ hc0)
      have EC : Extends st (emitC sc0 .opJumpNotTruthy [9999]).1 :=
        extendsTrans E0 (extends_emit sc0 .opJumpNotTruthy [9999])
      have EB : Extends st s3 := extendsTrans EC (compile_extends _ _ _ hbody)
      have EP : Extends st s4 := extendsTrans EB (compile_extends _ _ _ hpost)
      exact extends_changeOperand _ _
        (extendsTrans EP (extends_emit _ .opJump _)) (extends_len E0)
    · obtain ⟨s1, hinit, h⟩ := bind_ok_elim h
      obtain ⟨⟨sC, jnt⟩, hpr, h⟩ := bind_ok_elim h
      obtain ⟨s3, hbody, h⟩ := bind_ok_elim h
      obtain ⟨s4, hpost, h⟩ := bind_ok_elim h
      injection hpr with hx2
      injection hx2 with hx3 hx4
      subst hx3
      subst hx4
      injection hpost with hx5
      subst hx5
      injection h with h2
      subst h2
      have E1 : Extends st s1 :=
        extendsTrans (extends_lastLine st line) (compile_extends _ _ _ hinit)
      have EB : Extends st s3 := extendsTrans E1 (compile_extends _ _ _ hbody)
      have EP : Extends st s3 := EB
      exact extendsTrans EP (extends_emit _ .opJump _)
    · obtain ⟨s1, hinit, h⟩ := bind_ok_elim h
      obtain ⟨⟨sC, jnt⟩, hpr, h⟩ := bind_ok_elim h
      obtain ⟨s3, hbody, h⟩ := bind_ok_elim h
      obtain ⟨s4, hpost, h⟩ := bind_ok_elim h
      injection hpr with hx2
      injection hx2 with hx3 hx4
      subst hx3
      subst hx4
      injection h with h2
      subst h2
      have E1 : Extends st s1 :=
        extendsTrans (extends_lastLine st line) (compile_extends _ _ _ hinit)
      have EB : Extends st s3 := extendsTrans E1 (compile_extends _ _ _ hbody)
      have EP : Extends st s4 := extendsTrans EB (compile_extends _ _ _ hpost)
      exact extendsTrans EP (extends_emit _ .opJump _)
    · obtain ⟨s1, hinit, h⟩ := bind_ok_elim h
      obtain ⟨sc0, hc0, h⟩ := bind_ok_elim h
      obtain ⟨⟨sC, jnt⟩, hpr, h⟩ := bind_ok_elim h
      obtain ⟨s3, hbody, h⟩ := bind_ok_elim h
      obtain ⟨s4, hpost, h⟩ := bind_ok_elim h
      injection hpr with hx2
      injection hx2 with hx3 hx4
      subst hx3
      subst hx4
      injection hpost with hx5
      subst hx5
      injection h with h2
      subst h2
      have E1 : Extends st s1 :=
        extendsTrans (extends_lastLine st line) (compile_extends _ _ _ hinit)
      have E0 : Extends st sc0 := extendsTrans E1 (compile_extends _ _ _ hc0)
      have EC : Extends st (emitC sc0 .opJumpNotTruthy [9999]).1 :=
        extendsTrans E0 (extends_emit sc0 .opJumpNotTruthy [9999])
      have EB : Extends st s3 := extendsTrans EC (compile_extends _ _ _ hbody)
      have EP : Extends st s3 := EB
      exact extends_changeOperand _ _
        (extendsTrans EP (extends_emit _ .opJump _)) (extends_len E0)
    · obtain ⟨s1, hinit, h⟩ := bind_ok_elim h
      obtain ⟨sc0, hc0, h⟩ := bind_ok_elim h
      obtain ⟨⟨sC, jnt⟩, hpr, h⟩ := bind_ok_elim h
      obtain ⟨s3, hbody, h⟩ := bind_ok_elim h
      obtain ⟨s4, hpost, h⟩ := bind_ok_elim h
      injection hpr with hx2
      injection hx2 with hx3 hx4
      subst hx3
      subst hx4
      injection h with h2
      subst h2
      have E1 : Extends st s1 :=
        extendsTrans (extends_lastLine st line) (compile_extends _ _ _ hinit)
      have E0 : Extends st sc0 := extendsTrans E1 (compile_extends _ _ _ hc0)
      have EC : Extends st (emitC sc0 .opJumpNotTruthy [9999]).1 :=
        extendsTrans E0 (extends_emit sc0 .opJumpNotTruthy [9999])
      have EB : Extends st s3 := extendsTrans EC (compile_extends _ _ _ hbody)
      have EP : Extends st s4 := extendsTrans EB (compile_extends _ _ _ hpost)
      exact extends_changeOperand _ _
        (extendsTrans EP (extends_emit _ .opJump _)) (extends_len E0)
  | .breakStmt line, st, st2 => by
    intro h
    injection h with h2
    subst h2
    exact extendsRefl st
  | .continueStmt line, st, st2 => by
    intro h
    injection h with h2
    subst h2
    exact extendsRefl st

/-- The statement loop only appends instructions. -/
theorem compileNodes_extends : ∀ (ns : List Node) (st st2 : CompSt),
    compileNodes ns st = .ok st2 → Extends st st2
  | [], st, st2 => fun h => by
    injection h with h1
    subst h1
    exact extendsRefl st
  | n :: ns, st, st2 => fun h => by
    obtain ⟨s1, h1, h2⟩ := bind_ok_elim h
    exact extendsTrans (compile_extends n _ _ h1)
      (compileNodes_extends ns _ _ h2)

/-- The map-literal pair loop only appends instructions. -/
theorem compilePairs_extends : ∀ (ps : List (Node × Node)) (st st2 : CompSt),
    compilePairs ps st = .ok st2 → Extends st st2
  | [], st, st2 => fun h => by
    injection h with h1
    subst h1
    exact extendsRefl st
  | (k, v) :: ps, st, st2 => fun h => by
    obtain ⟨s1, h1, h⟩ := bind_ok_elim h
    obtain ⟨s2, h2, h⟩ := bind_ok_elim h
    exact extendsTrans (compile_extends k _ _ h1)
      (extendsTrans (compile_extends v _ _ h2)
        (compilePairs_extends ps _ _ h))

end

/-- C9: the compiler's comparison rewrites.  Whenever compiling the
operands succeeds, `a < b` compiles as the code for `b`, then `a`, then
`GreaterThan`; `a <= b` as `a`, `b`, `GreaterThan`, `Not`; `a >= b` as
`b`, `a`, `GreaterThan`, `Not`; and `>`, `==`, `!=` emit their operands
followed by the single opcode `GreaterThan`, `Equal`, `NotEqual`
respectively — so every comparison operator lands on the VM's three
comparison opcodes.  The operand compilations are proved (via
`compile_extends`) to append blocks `codeB` / `codeA` to the instruction
buffer, so the emitted layout is exactly operand code followed by the
comparison opcode. -/
theorem c9_comparison_rewrites (line : Nat) (a b : Node) (st : CompSt) :
    (∀ st1 st2,
      compileNode b { st with lastLine := line } = .ok st1 →
      compileNode a st1 = .ok st2 →
      compileNode (.binop line "<" a b) st = .ok (emitC st2 .opGreaterThan []).1 ∧
      ∃ codeB codeA,
        st1.cur.instructions = st.cur.instructions ++ codeB ∧
        st2.cur.instructions = st1.cur.instructions ++ codeA ∧
        (emitC st2 .opGreaterThan []).1.cur.instructions =
          st.cur.instructions ++ (codeB ++ codeA ++ make .opGreaterThan [])) ∧
    (∀ st1 st2,
      compileNode a { st with lastLine := line } = .ok st1 →
      compileNode b st1 = .ok st2 →
      compileNode (.binop line "<=" a b) st =
        .ok (emitC (emitC st2 .opGreaterThan []).1 .opBang []).1 ∧
      ∃ codeA codeB,
        st1.cur.instructions = st.cur.instructions ++ codeA ∧
        st2.cur.instructions = st1.cur.instructions ++ codeB ∧
        (emitC (emitC st2 .opGreaterThan []).1 .opBang []).1.cur.instructions =
          st.cur.instructions ++
            (codeA ++ codeB ++ make .opGreaterThan [] ++ make .opBang [])) ∧
    (∀ st1 st2,
      compileNode b { st with lastLine := line } = .ok st1 →
      compileNode a st1 = .ok st2 →
      compileNode (.binop line ">=" a b) st =
        .ok (emitC (emitC st2 .opGreaterThan []).1 .opBang []).1 ∧
      ∃ codeB codeA,
        st1.cur.instructions = st.cur.instructions ++ codeB ∧
        st2.cur.instructions = st1.cur.instructions ++ codeA ∧
        (emitC (emitC st2 .opGreaterThan []).1 .opBang []).1.cur.instructions =
          st.cur.instructions ++
            (codeB ++ codeA ++ make .opGreaterThan [] ++ make .opBang [])) ∧
    (∀ st1 st2,
      compileNode a { st with lastLine := line } = .ok st1 →
      compileNode b st1 = .ok st2 →
      (compileNode (.binop line ">" a b) st = .ok (emitC st2 .opGreaterThan []).1 ∧
        (emitC st2 .opGreaterThan []).1.cur.instructions =
          st.cur.instructions ++
            ((st1.cur.instructions.drop st.cur.instructions.length) ++
              (st2.cur.instructions.drop st1.cur.instructions.length) ++
              make .opGreaterThan [])) ∧
      (compileNode (.binop line "==" a b) st = .ok (emitC st2 .opEqual []).1 ∧
        (emitC st2 .opEqual []).1.cur.instructions =
          st.cur.instructions ++
            ((st1.cur.instructions.drop st.cur.instructions.length) ++
              (st2.cur.instructions.drop st1.cur.instructions.length) ++
              make .opEqual [])) ∧
      (compileNode (.binop line "!=" a b) st = .ok (emitC st2 .opNotEqual []).1 ∧
        (emitC st2 .opNotEqual []).1.cur.instructions =
          st.cur.instructions ++
            ((st1.cur.instructions.drop st.cur.instructions.length) ++
              (st2.cur.instructions.drop st1.cur.instructions.length) ++
              make .opNotEqual []))) := by
  refine ⟨?_, ?_, ?_, ?_⟩ <;>
    intro st1 st2 h1 h2
  · obtain ⟨_, ⟨sufB, hB⟩, _⟩ := compile_extends b _ _ h1
    obtain ⟨_, ⟨sufA, hA⟩, _⟩ := compile_extends a _ _ h2
    constructor
    · rw [compileNode_binop_lt, h1, okBind, h2, okBind]
    · refine ⟨sufB, sufA, hB, hA, ?_⟩
      rw [emitC_instructions, hA, hB]
      simp [List.append_assoc]
  · obtain ⟨_, ⟨sufA, hA⟩, _⟩ := compile_extends a _ _ h1
    obtain ⟨_, ⟨sufB, hB⟩, _⟩ := compile_extends b _ _ h2
    constructor
    · rw [compileNode_binop_le, h1, okBind, h2, okBind]
    · refine ⟨sufA, sufB, hA, hB, ?_⟩
      rw [emitC_instructions, emitC_instructions, hB, hA]
      simp [List.append_assoc]
  · obtain ⟨_, ⟨sufB, hB⟩, _⟩ := compile_extends b _ _ h1
    obtain ⟨_, ⟨sufA, hA⟩, _⟩ := compile_extends a _ _ h2
    constructor
    · rw [compileNode_binop_ge, h1, okBind, h2, okBind]
    · refine ⟨sufB, sufA, hB, hA, ?_⟩
      rw [emitC_instructions, emitC_instructions, hA, hB]
      simp [List.append_assoc]
  · obtain ⟨_, ⟨sufA, hA⟩, _⟩ := compile_extends a _ _ h1
    obtain ⟨_, ⟨sufB, hB⟩, _⟩ := compile_extends b _ _ h2
    have hdA : st1.cur.instructions.drop st.cur.instructions.length = sufA := by
      rw [hA]
      exact List.drop_left st.cur.instructions sufA
    have hdB : st2.cur.instructions.drop st1.cur.instructions.length = sufB := by
      rw [hB]
      exact List.drop_left st1.cur.instructions sufB
    refine ⟨⟨?_, ?_⟩, ⟨?_, ?_⟩, ⟨?_, ?_⟩⟩
    · rw [compileNode_binop_gt, h1, okBind, h2, okBind]
    · rw [emitC_instructions, hdA, hdB, hB, hA]
      simp [List.append_assoc]
    · rw [compileNode_binop_eq, h1, okBind, h2, okBind]
    · rw [emitC_instructions, hdA, hdB, hB, hA]
      simp [List.append_assoc]
    · rw [compileNode_binop_ne, h1, okBind, h2, okBind]
    · rw [emitC_instructions, hdA, hdB, hB, hA]
      simp [List.append_assoc]

/-- C9 witness. -/
theorem c9_comparison_rewrites_witness :
    compiledBytes (.binop 1 "<" (.intLit 1 1) (.intLit 1 2)) =
      some (make .opConstant [0] ++ make .opConstant [1] ++ make .opGreaterThan []) := by
  have h := (c9_comparison_rewrites 1 (.intLit 1 1) (.intLit 1 2) newCompiler).1
    _ _ rfl rfl
  simp only [compiledBytes, h.1]
  rfl

/-- With integer bounds and a non-negative end bound, the adjusted indices
satisfy the Go slice precondition and the operation succeeds. -/
theorem slice_int_ok (elems : List Obj) (s0 e0 : Int) (he : 0 ≤ e0) :
    ∃ res, executeSliceExpression (.array elems) (.integer s0) (.integer e0) = .ok res := by
  simp only [executeSliceExpression, isNullObj, integerValue,
    Bool.false_eq_true, if_false]
  exact ⟨_, if_pos (by split_ifs <;> omega)⟩

/-- An absent start bound behaves as start 0. -/
theorem slice_null_start (elems : List Obj) (endB : Obj) :
    executeSliceExpression (.array elems) .null endB =
      executeSliceExpression (.array elems) (.integer 0) endB := rfl

/-- An absent end bound behaves as end = length. -/
theorem slice_null_end (elems : List Obj) (startB : Obj) :
    executeSliceExpression (.array elems) startB .null =
      executeSliceExpression (.array elems) startB (.integer elems.length) := rfl

/-- A negative start index clamps to 0. -/
theorem slice_start_clamp (elems : List Obj) (v ev : Int) (hv : v < 0) :
    executeSliceExpression (.array elems) (.integer v) (.integer ev) =
      executeSliceExpression (.array elems) (.integer 0) (.integer ev) := by
  simp [executeSliceExpression, isNullObj, integerValue]
  rw [if_pos hv]

/-- An end index at or beyond the length clamps to the length. -/
theorem slice_end_clamp (elems : List Obj) (sv v : Int)
    (hv : (elems.length : Int) ≤ v) :
    executeSliceExpression (.array elems) (.integer sv) (.integer v) =
      executeSliceExpression (.array elems) (.integer sv) (.integer elems.length) := by
  simp [executeSliceExpression, isNullObj, integerValue]
  rcases lt_or_eq_of_le hv with h | h
  · rw [if_pos h]
    split_ifs <;>
      first
        | rfl
        | omega
        | simp_all [Int.toNat_natCast, List.take_length]
  · rw [← h]
    split_ifs <;> try (first | rfl | omega)
    all_goals simp [Int.toNat_natCast, List.take_length]

/-- A start bound at or above a non-negative end bound yields the empty
array. -/
theorem slice_empty_when_start_ge_end (elems : List Obj) (sv ev : Int)
    (hev : 0 ≤ ev) (hle : ev ≤ sv) :
    executeSliceExpression (.array elems) (.integer sv) (.integer ev) = .ok [] := by
  simp only [executeSliceExpression, isNullObj, integerValue,
    Bool.false_eq_true, if_false]
  rw [if_pos (by split_ifs <;> omega)]
  simp only [ExecRes.ok.injEq]
  apply List.drop_eq_nil_of_le
  split_ifs <;> simp [List.length_take] <;> omega

/-- The slice result is a freshly allocated array: its identity differs
from the operand's, and writing through it leaves the operand's elements
untouched. -/
theorem sliceAlloc_fresh (h : ArrHeap) (leftId : Nat) (startB endB : Obj)
    (hlt : leftId < h.length) (h2 : ArrHeap) (fid : Nat)
    (halloc : sliceAlloc h leftId startB endB = .ok (h2, fid)) :
    fid ≠ leftId ∧
    ∀ i v, (heapWrite h2 fid i v).getD leftId [] = h.getD leftId [] := by
  unfold sliceAlloc at halloc
  rcases hex : executeSliceExpression (.array (h.getD leftId [])) startB endB with
      res | m | m <;> rw [hex] at halloc
  case err => exact absurd halloc (by simp)
  case goPanic => exact absurd halloc (by simp)
  dsimp only at halloc
  injection halloc with hp
  rw [Prod.ext_iff] at hp
  obtain ⟨hh, hf⟩ := hp
  subst hh
  subst hf
  refine ⟨by omega, ?_⟩
  intro i v
  simp only [heapWrite, List.getD, List.get?_eq_getElem?]
  rw [List.getElem?_set_ne (by omega)]
  rw [List.getElem?_append, if_pos hlt]

/-- C10, counterexample.  The claim says the slice never errors for
null-or-integer bounds; with a negative integer end bound (e.g.
`arr[:-1]`) the adjustment lowers the start onto the negative end and the
Go slice expression `elements[startIndex:endIndex]` panics (slice bounds
out of range), crashing the run. -/
theorem c10_counterexample :
    executeSliceExpression (.array [.integer 1]) .null (.integer (-1)) =
      .goPanic "runtime error: slice bounds out of range" ∧
    resIsErr (executeSliceExpression (.array [.integer 1]) .null (.integer (-1))) =
      false ∧
    outcomeTag (runGo false 100 0
      (initState [.array [.integer 1], .integer (-1)] sliceProgram [(0, 1)])) =
      "goPanic" :=
  ⟨rfl, rfl, rfl⟩

/-- C10, amended: for every array operand and slice bounds that are each
null or an integer, provided an integer end bound is non-negative, the
Slice operation never raises an error: a negative start clamps to 0, an
end at or beyond the length clamps to the length, a start at or above the
end yields an empty array, and the result is a freshly allocated array
whose mutation does not alter the original.  (A negative integer end
bound instead crashes with a Go slice-bounds panic.) -/
theorem c10_slice_semantics (elems : List Obj) (startB endB : Obj)
    (hs : startB = Obj.null ∨ ∃ v, startB = Obj.integer v)
    (he : endB = Obj.null ∨ ∃ v, 0 ≤ v ∧ endB = Obj.integer v) :
    (∃ res, executeSliceExpression (.array elems) startB endB = .ok res) ∧
    (∀ v : Int, v < 0 →
      executeSliceExpression (.array elems) (.integer v) endB =
        executeSliceExpression (.array elems) (.integer 0) endB) ∧
    (∀ v : Int, (elems.length : Int) ≤ v →
      executeSliceExpression (.array elems) startB (.integer v) =
        executeSliceExpression (.array elems) startB (.integer elems.length)) ∧
    (∀ sv ev : Int, 0 ≤ ev → ev ≤ sv →
      executeSliceExpression (.array elems) (.integer sv) (.integer ev) = .ok []) ∧
    (∀ (h : ArrHeap) (leftId : Nat), leftId < h.length →
      ∀ h2 fid, sliceAlloc h leftId startB endB = .ok (h2, fid) →
        fid ≠ leftId ∧
        ∀ i v, (heapWrite h2 fid i v).getD leftId [] = h.getD leftId []) := by
  refine ⟨?_, ?_, ?_, ?_, ?_⟩
  · rcases hs with rfl | ⟨sv, rfl⟩ <;> rcases he with rfl | ⟨ev, hev, rfl⟩
    · rw [slice_null_start, slice_null_end]
      exact slice_int_ok elems 0 elems.length (Int.natCast_nonneg _)
    · rw [slice_null_start]
      exact slice_int_ok elems 0 ev hev
    · rw [slice_null_end]
      exact slice_int_ok elems sv elems.length (Int.natCast_nonneg _)
    · exact slice_int_ok elems sv ev hev
  · intro v hv
    rcases he with rfl | ⟨ev, hev, rfl⟩
    · rw [slice_null_end, slice_null_end]
      exact slice_start_clamp elems v elems.length hv
    · exact slice_start_clamp elems v ev hv
  · intro v hv
    rcases hs with rfl | ⟨sv, rfl⟩
    · rw [slice_null_start, slice_null_start]
      exact slice_end_clamp elems 0 v hv
    · exact slice_end_clamp elems sv v hv
  · intro sv ev hev hle
    exact slice_empty_when_start_ge_end elems sv ev hev hle
  · intro h leftId hlt h2 fid halloc
    exact sliceAlloc_fresh h leftId startB endB hlt h2 fid halloc

/-- C10 witness. -/
theorem c10_slice_semantics_witness :
    executeSliceExpression (.array [Obj.integer 1, Obj.integer 2])
        (.integer 5) (.integer 1) = .ok [] ∧
    executeSliceExpression (.array [Obj.integer 1, Obj.integer 2])
        (.integer (-5)) .null =
      executeSliceExpression (.array [Obj.integer 1, Obj.integer 2])
        (.integer 0) .null :=
  ⟨(c10_slice_semantics [Obj.integer 1, Obj.integer 2] .null .null
      (Or.inl rfl) (Or.inl rfl)).2.2.2.1 5 1 (by decide) (by decide),
   (c10_slice_semantics [Obj.integer 1, Obj.integer 2] .null .null
      (Or.inl rfl) (Or.inl rfl)).2.1 (-5) (by decide)⟩

/-- C4 witness. -/
theorem c4_error_kinds_witness :
    (kindString .runtime = "Parse error" ∨ kindString .runtime = "Compile error" ∨
      kindString .runtime = "Runtime error") ∧
    (runGo true 1 1023 (initState [] jumpLoopProgram [])).1 = .cancelled :=
  ⟨(c4_error_kinds .runtime 0 1023 (initState [] jumpLoopProgram [])
      (by decide) (by decide) (by decide)).1,
   (c4_error_kinds .runtime 0 1023 (initState [] jumpLoopProgram [])
      (by decide) (by decide) (by decide)).2.1⟩

end Ice
